import Mathlib

/-!
Verification of the quiz program (`src/quiz.py`) against its natural-language
specification.  The relevant parts of the program are shallowly embedded below:
pure helper functions (`exponent`, `short_float`, `adjust_float`, `adjust_str`,
`arr2str`) become Lean functions on `ℚ`, `String` and lists; the interactive
pieces (the `choose_int` round, the `choose_opts` token pass, the variable-mode
option-sampling loop, the island-condition branch, the answer-count gate and the
correct-answer removal loop of `main`) become explicit functions of the user
input and of the state they mutate.  Machine floats of the source are modelled
by exact rationals; Python exceptions are modelled by `Option`/`Except`.

Numeric evaluation note: all executable definitions compute on `Rat.num` /
`Rat.den` with integer arithmetic only (never through `Rat.mul` / `Rat.div`),
and build rationals with `mkRat`, so that every concrete instance below is
checkable by `decide`.  Bridging lemmas relate these executable forms to the
ordinary field operations on `ℚ` used in the stated theorems.
-/

/-- Delimiter of the source: `DELIM = ','`; `arr2str` joins with `DELIM + ' '`. -/
def DELIM_SEP : String := ", "

/-- Placeholder of the source for empty values: `NONE = '-'`. -/
def NONE_TOKEN : String := "-"

/-- Source `NEG_PREFIXES = 'mμnpfazyrq'` (SI magnitude suffix characters for
negative powers of 1000, in exponent-bucket order -1..-10). -/
def siNegChars : List Char := ['m', 'μ', 'n', 'p', 'f', 'a', 'z', 'y', 'r', 'q']

/-- Source `POS_PREFIXES = 'kMGTPEZYRQ'` (SI magnitude suffix characters for
positive powers of 1000, in exponent-bucket order +1..+10). -/
def siPosChars : List Char := ['k', 'M', 'G', 'T', 'P', 'E', 'Z', 'Y', 'R', 'Q']

/-- Decimal digit character, by exhaustive table so that every concrete
evaluation reduces definitionally. -/
def digitChar (d : Nat) : Char :=
  match d with
  | 0 => '0' | 1 => '1' | 2 => '2' | 3 => '3' | 4 => '4'
  | 5 => '5' | 6 => '6' | 7 => '7' | 8 => '8' | _ => '9'

/-- Numeric value of a decimal digit character. -/
def digitVal (c : Char) : Nat := c.toNat - 48

/-- Decimal digit list of a natural number, most significant first.  The
`fuel` argument (call it with `fuel = n`) makes the recursion structural. -/
def natToDigits (fuel n : Nat) : List Char :=
  match fuel with
  | 0 => [digitChar (n % 10)]
  | f + 1 => if n < 10 then [digitChar n] else natToDigits f (n / 10) ++ [digitChar (n % 10)]

/-- Decimal string of a natural number. -/
def natToStr (n : Nat) : String := String.mk (natToDigits n n)

/-- Value of a decimal digit string. -/
def digitsVal (l : List Char) : Nat := l.foldl (fun a c => 10 * a + digitVal c) 0

/-- Python `f-string` rendering of an integer (`f'{int(num)}'` of the source). -/
def renderInt (n : Int) : String :=
  (if n < 0 then "-" else "") ++ natToStr n.natAbs

/-- Python `f'{num:.1f}'` rendering of the rational `M / 10` (the source only
formats exact multiples of one tenth this way, so the rendering is exact). -/
def render1dpInt (M : Int) : String :=
  (if M < 0 then "-" else "") ++ natToStr (M.natAbs / 10) ++ "." ++ natToStr (M.natAbs % 10)

/-- Code-point-lexicographic comparison of character lists, as Python compares
strings. -/
def lexLe : List Char → List Char → Bool
  | [], _ => true
  | _ :: _, [] => false
  | a :: as, b :: bs =>
    if a.toNat < b.toNat then true else if a.toNat = b.toNat then lexLe as bs else false

/-- Python string comparison (code-point lexicographic), Prop-valued. -/
def pyLe (a b : String) : Prop := lexLe a.data b.data = true

instance : DecidableRel pyLe := fun a b => instDecidableEqBool (lexLe a.data b.data) true

/-- Python `sorted` on strings. -/
def pySorted (l : List String) : List String := List.insertionSort pyLe l

/-- Source `arr2str(arr)`: `(DELIM + ' ').join(sorted(arr))`. -/
def arr2str (l : List String) : String := String.intercalate DELIM_SEP (pySorted l)

/-- Number of decimal digits of `n` (1 for `n < 10`), with structural fuel;
call it with `fuel = n`. -/
def digLen (fuel n : Nat) : Nat :=
  match fuel with
  | 0 => 1
  | f + 1 => if n < 10 then 1 else digLen f (n / 10) + 1

/-- Source `exponent(n)` (lines 36-47): the base-10 exponent `e` of `|q|`,
characterised by `10^e ≤ |q| < 10^(e+1)`.  The source computes it with a
search loop over the float; over `ℚ` we compute it from digit lengths of the
numerator and denominator and a single cross-multiplied comparison (the
bridging lemma `ratExp_spec` proves the loop's defining bracket property).
The source returns `±inf` for `0`/infinite input; those escapes are handled at
the call sites of the model (`short_float` tests `q = 0` directly). -/
def ratExp (q : ℚ) : Int :=
  let n := q.num.natAbs
  let d := q.den
  let a := digLen n n
  let b := digLen d d
  let c : Int := (a : Int) - (b : Int)
  if d * 10 ^ a ≤ n * 10 ^ b then c else c - 1

/-- Round-half-even (Python banker's rounding) of the fraction `n / d` for
`d > 0`, computed with integer arithmetic. -/
def rheFrac (n d : Int) : Int :=
  let f := n.fdiv d
  let r := n.fmod d
  if 2 * r < d then f else if d < 2 * r then f + 1 else if f % 2 = 0 then f else f + 1

/-- Round-half-even of `q * 10^z`, computed without rational arithmetic.
`rheScaled_eq` relates it to `roundHalfEven (q * 10 ^ z)`. -/
def rheScaled (q : ℚ) (z : Int) : Int :=
  if 0 ≤ z then rheFrac (q.num * 10 ^ z.toNat) (q.den : Int)
  else rheFrac q.num ((q.den : Int) * 10 ^ (-z).toNat)

/-- Python `round(x)` to an integer: round half to even. -/
def roundHalfEven (x : ℚ) : Int :=
  let f := ⌊x⌋
  if x - f < 1 / 2 then f
  else if (1 / 2 : ℚ) < x - f then f + 1
  else if f % 2 = 0 then f else f + 1

/-- Source `short_float(num)` (lines 76-94).  The argument is split into the
literal form `string` (`str(num)` of the source, only ever returned verbatim
by the out-of-range fallback) and the numeric value `q` (`float(num)`).
With `e = exponent(num)`, `i = e//3`, `r = e%3`, the source computes
`round(num*10**-(3*i), 1-r)`, which is exactly `M * 10^(r-1)` for
`M = rheScaled q (1-e)`; the `int(...)` formatting branch (`r > 0`) therefore
renders the integer `M * 10^(r-1)` and the `:.1f` branch (`r = 0`) renders
`M / 10` with one decimal place. -/
def short_float (string : String) (q : ℚ) : String :=
  if q = 0 then string
  else
    let e := ratExp q
    let i := e.fdiv 3
    let r := e.fmod 3
    let M := rheScaled q (1 - e)
    let numStr := if 0 < r then renderInt (M * 10 ^ (r.toNat - 1)) else render1dpInt M
    if i = 0 then numStr
    else
      let pfxs := if 0 < i then siPosChars else siNegChars
      let j := i.natAbs - 1
      if j < pfxs.length then numStr ++ String.mk [pfxs.getD j ' '] else string

/-- Optional leading sign of a numeric literal: returns (negative?, rest). -/
def parseNumSign : List Char → Bool × List Char
  | [] => (false, [])
  | c :: t => if c = '-' then (true, t) else if c = '+' then (false, t) else (false, c :: t)

/-- Exact rational value `n * 10^z`, built with `mkRat` so that concrete
instances reduce; `ratOfScaled_eq` relates it to the field expression. -/
def ratOfScaled (n : Int) (z : Int) : ℚ :=
  if 0 ≤ z then mkRat (n * 10 ^ z.toNat) 1 else mkRat n (10 ^ (-z).toNat)

/-- Exponent part of a float literal: empty, or `e`/`E` with optional sign and
digits and nothing after.  `mNum` and `mShift` carry the already-parsed
mantissa value `mNum * 10^(-mShift)`. -/
def parseExpTail (mNum : Int) (mShift : Nat) : List Char → Option ℚ
  | [] => some (ratOfScaled mNum (-(mShift : Int)))
  | c :: t =>
    if c = 'e' ∨ c = 'E' then
      let p := parseNumSign t
      let ed := p.2.takeWhile Char.isDigit
      let rest := p.2.dropWhile Char.isDigit
      if ed = [] ∨ rest ≠ [] then none
      else
        some (ratOfScaled mNum
          ((if p.1 then -(digitsVal ed : Int) else (digitsVal ed : Int)) - (mShift : Int)))
    else none

/-- Fractional part of a float literal: on `'.' :: t` consume the digits of
`t`, otherwise consume nothing; returns (fraction digits, rest). -/
def parseFrac : List Char → List Char × List Char
  | [] => ([], [])
  | c :: t =>
    if c = '.' then (t.takeWhile Char.isDigit, t.dropWhile Char.isDigit) else ([], c :: t)

/-- Mantissa-and-exponent part of a float literal, after the optional sign:
integer digits, optional fraction, optional exponent part; at least one
mantissa digit must be present. -/
def parseAfterSign (neg : Bool) (l : List Char) : Option ℚ :=
  let ip := l.takeWhile Char.isDigit
  let f := parseFrac (l.dropWhile Char.isDigit)
  if ip = [] ∧ f.1 = [] then none
  else
    let mag : Int := ((digitsVal ip * 10 ^ f.1.length + digitsVal f.1 : Nat) : Int)
    parseExpTail (if neg then -mag else mag) f.1.length f.2

/-- Python `float(s)` on the literal grammar the program produces and consumes:
optional sign, integer digits, optional fraction, optional exponent part
(whitespace, `inf`/`nan` and digit-group underscores are outside the model).
Returns `none` where `float` raises `ValueError`. -/
def parseFloat (s : String) : Option ℚ :=
  parseAfterSign (parseNumSign s.data).1 (parseNumSign s.data).2

/-- Suffix-expansion step of source `adjust_float` (lines 99-103): when the
last character is a known SI suffix, replace it by the matching `e±3k`
exponent notation; otherwise leave the string unchanged.  (Defined on a
nonempty-data string; `adjust_float` handles the empty case.) -/
def expandSuffix (s : String) : String :=
  match s.data.getLast? with
  | none => s
  | some lc =>
    if lc ∈ siNegChars then
      String.mk (s.data.dropLast ++ 'e' :: '-' :: natToDigits (3 * (siNegChars.indexOf lc + 1)) (3 * (siNegChars.indexOf lc + 1)))
    else if lc ∈ siPosChars then
      String.mk (s.data.dropLast ++ 'e' :: '+' :: natToDigits (3 * (siPosChars.indexOf lc + 1)) (3 * (siPosChars.indexOf lc + 1)))
    else s

/-- Source `adjust_float(num)` (lines 97-108).  `num[-1]` on the empty string
raises an uncaught `IndexError` (outside the `try`), modelled by `none`.
Otherwise the suffix-expanded string is re-canonicalised through
`short_float`; the `except` branch returns the original string whenever
`float(num)` fails to parse. -/
def adjust_float (s : String) : Option String :=
  match s.data.getLast? with
  | none => none
  | some _ =>
    some (match parseFloat (expandSuffix s) with
      | some q => short_float (expandSuffix s) q
      | none => s)

/-- Combining-mark characters (Unicode category `Mn`) of the modelled fragment
of `unicodedata`: grave, acute, circumflex, tilde, diaeresis, ring above and
cedilla. -/
def mnMarks : List Char :=
  ['̀', '́', '̂', '̃', '̈', '̊', '̧']

/-- Canonical (NFD) decompositions of the modelled fragment of `unicodedata`:
precomposed Latin letters decompose into a base letter followed by combining
marks; every character outside the table is NFD-inert. -/
def nfdTable : List (Char × List Char) :=
  [('À', ['A', '̀']), ('à', ['a', '̀']),
   ('Á', ['A', '́']), ('á', ['a', '́']),
   ('È', ['E', '̀']), ('è', ['e', '̀']),
   ('É', ['E', '́']), ('é', ['e', '́']),
   ('Â', ['A', '̂']), ('â', ['a', '̂']),
   ('Ã', ['A', '̃']), ('ã', ['a', '̃']),
   ('Ñ', ['N', '̃']), ('ñ', ['n', '̃']),
   ('Ö', ['O', '̈']), ('ö', ['o', '̈']),
   ('Ü', ['U', '̈']), ('ü', ['u', '̈']),
   ('Å', ['A', '̊']), ('å', ['a', '̊']),
   ('Ç', ['C', '̧']), ('ç', ['c', '̧'])]

/-- NFD decomposition of one character (identity off the table). -/
def nfdChar (c : Char) : List Char :=
  match nfdTable.lookup c with
  | some l => l
  | none => [c]

/-- Source `normalize(string)` (lines 50-53): NFD-decompose, then drop the
characters of category `Mn`. -/
def normalizeChars (l : List Char) : List Char :=
  (l.flatMap nfdChar).filter (fun c => !(mnMarks.contains c))

/-- Lower-case table of the modelled fragment of `str.lower`: ASCII letters
plus the accented letters of `nfdTable`; identity off the table. -/
def lowerTable : List (Char × Char) :=
  [('A', 'a'), ('B', 'b'), ('C', 'c'), ('D', 'd'), ('E', 'e'), ('F', 'f'),
   ('G', 'g'), ('H', 'h'), ('I', 'i'), ('J', 'j'), ('K', 'k'), ('L', 'l'),
   ('M', 'm'), ('N', 'n'), ('O', 'o'), ('P', 'p'), ('Q', 'q'), ('R', 'r'),
   ('S', 's'), ('T', 't'), ('U', 'u'), ('V', 'v'), ('W', 'w'), ('X', 'x'),
   ('Y', 'y'), ('Z', 'z'),
   ('À', 'à'), ('Á', 'á'), ('È', 'è'), ('É', 'é'), ('Â', 'â'), ('Ã', 'ã'),
   ('Ñ', 'ñ'), ('Ö', 'ö'), ('Ü', 'ü'), ('Å', 'å'), ('Ç', 'ç')]

/-- Python `str.lower` on one character of the modelled fragment. -/
def lowerChar (c : Char) : Char := (lowerTable.lookup c).getD c

/-- A character is inert for the normalizer model: it has no NFD decomposition
and is not a combining mark. -/
def inertChar (c : Char) : Bool := (nfdTable.lookup c).isNone && !(mnMarks.contains c)

/-- Whether the list contains two adjacent spaces (Python `'  ' in string`). -/
def hasDbl : List Char → Bool
  | [] => false
  | [_] => false
  | a :: b :: t => if a = ' ' ∧ b = ' ' then true else hasDbl (b :: t)

/-- Python `string.replace('  ', ' ')`: one left-to-right non-overlapping
replacement pass. -/
def replDbl : List Char → List Char
  | [] => []
  | [c] => [c]
  | a :: b :: t => if a = ' ' ∧ b = ' ' then ' ' :: replDbl t else a :: replDbl (b :: t)

/-- Source loop `while '  ' in string: string = string.replace('  ', ' ')`
(lines 113-114).  Each pass strictly shortens the list, so `fuel = length`
suffices (`collapseLoop_noDbl` proves the loop's exit condition holds). -/
def collapseLoop (fuel : Nat) (l : List Char) : List Char :=
  match fuel with
  | 0 => l
  | f + 1 => if hasDbl l then collapseLoop f (replDbl l) else l

/-- Source `adjust_str(string)` (lines 111-115): `normalize` (NFD plus
`Mn`-stripping), then `str.lower`, then collapse runs of spaces. -/
def adjust_str (s : String) : String :=
  let l := (normalizeChars s.data).map lowerChar
  String.mk (collapseLoop l.length l)

/-- Python runtime errors relevant to the model. -/
inductive PyExn
  | typeError
  | valueError
deriving DecidableEq

/-- Python `int(s)`: optional sign followed by a nonempty digit string
(surrounding whitespace and digit-group underscores are outside the model);
`none` where `int` raises `ValueError`. -/
def pyIntParse (s : String) : Option Int :=
  let p := parseNumSign s.data
  if p.2 ≠ [] ∧ p.2.all Char.isDigit then
    some (if p.1 then -(digitsVal p.2 : Int) else (digitsVal p.2 : Int))
  else none

/-- One round of source `choose_int` (lines 142-152) on a nonempty stripped
input line.  On `int(choice)` failure the source prints an error and sets
`repeat`, but then still evaluates `lower <= choice <= upper` with `choice`
bound to the input string, so the round raises `TypeError` (comparing `int`
with `str`) instead of re-prompting.  `ok (some n)` is an accepted value,
`ok none` re-prompts (out-of-range integer). -/
def choose_intRound (lower upper : Int) (other : List Int) (input : String) :
    Except PyExn (Option Int) :=
  match pyIntParse input with
  | some n => .ok (if (lower ≤ n ∧ n ≤ upper) ∨ n ∈ other then some n else none)
  | none => .error .typeError

/-- Correct-answer removal loop of source `main` (lines 345-346):
`for answer in sorted(answer): questionnaire.remove((question, answer))`.
Python `list.remove` removes the first occurrence and raises `ValueError`
when the element is absent. -/
def removeAnswered (questionnaire : List (String × String)) (question : String)
    (answers : List String) : Except PyExn (List (String × String)) :=
  answers.foldlM
    (fun acc a =>
      if (question, a) ∈ acc then Except.ok (acc.erase (question, a))
      else Except.error PyExn.valueError)
    questionnaire

/-- Country record fields used by the island condition. -/
structure CountryRec where
  independent : Bool
  borders : List String
deriving DecidableEq

/-- Island-or-not branch of source `main` (lines 240-245).  `choice` is the
variable holding the answer given at the *independence* prompt (line 215);
`island` is the answer given at the island prompt (line 241).  The source
builds the predicate from `choice` — the `island` variable is never used. -/
def islandOrNotCond (choice : String) (island : String) : CountryRec → Bool :=
  if choice = "yes" then (fun c => !c.borders.isEmpty) else (fun c => c.borders.isEmpty)

/-- Acceptance test of the number-of-options prompt (source lines 301-303 with
`choose_int`'s range test, line 150): `lower = 2`, `upper = min(8, n_answers)`,
and `other = [0]` exactly when the question labels are pairwise distinct
(`len(set(questions)) == len(questions)`). -/
def acceptedNOpts (n_answers : Nat) (questions : List String) (k : Int) : Bool :=
  decide ((2 ≤ k ∧ k ≤ min 8 (n_answers : Int)) ∨
    k ∈ (if questions.Nodup then [(0 : Int)] else []))

/-- Option-mode flags chosen by source `main` (lines 304-316). -/
structure OptMode where
  no_opts : Bool
  var_opts : Bool
  multiple_answers : Bool
  options : List String
deriving DecidableEq

/-- Source `main` lines 304-316: mode selection from the accepted option
count.  In variable mode the option list is built per question by the
sampling loop, modelled by `varOptRun`; here it is `[]`. -/
def optMode (n_opts : Int) (ask_topic : Bool) (answers : List String) : OptMode :=
  let n_answers := answers.dedup.length
  if 0 < n_opts then
    if n_opts = (n_answers : Int) then
      { no_opts := false, var_opts := false, multiple_answers := false,
        options := pySorted answers.dedup }
    else
      { no_opts := false, var_opts := true, multiple_answers := !ask_topic, options := [] }
  else
    { no_opts := true, var_opts := false, multiple_answers := false, options := [] }

/-- Observable control-flow events around the answer-count gate. -/
inductive SessionEv
  | errNotEnough
  | promptNOpts
  | enterQuiz
deriving DecidableEq

/-- Source `main` lines 296-301: with fewer than 2 distinct answer values the
error is printed once and `InputException` is raised, which the top-level
handler turns into an immediate return (no option prompt, no quiz loop);
otherwise control reaches the option-count prompt and then the quiz loop.
`answers.dedup.length` is `len(set(answers))`. -/
def answerGate (answers : List String) : List SessionEv :=
  if answers.dedup.length < 2 then [SessionEv.errNotEnough]
  else [SessionEv.promptNOpts, SessionEv.enterQuiz]

/-- One full pass of the token loop of source `choose_opts` (lines 164-179):
each token must be a digit string whose value, minus 1, indexes an option;
the chosen option strings are collected into a set (modelled as an
accumulation list without duplicates).  `none` models the source's re-prompt
(`repeat = True` plus `break`). -/
def choose_optsStep (choices : List String) (acc : List String) (tok : String) :
    Option (List String) :=
  if tok.data ≠ [] ∧ tok.data.all Char.isDigit then
    let idx : Int := (digitsVal tok.data : Int) - 1
    if 0 ≤ idx ∧ idx < (choices.length : Int) then
      some (if choices.getD idx.toNat "" ∈ acc then acc
            else choices.getD idx.toNat "" :: acc)
    else none
  else none

/-- The token loop over a whole input line: fold `choose_optsStep` over the
delimiter-split tokens, starting from the empty set. -/
def choose_optsPass (choices : List String) (tokens : List String) :
    Option (List String) :=
  tokens.foldlM (choose_optsStep choices) []

/-- Result of a successful `choose_opts` pass: `arr2str(choice)` of the
collected set (source line 180). -/
def choose_optsResult (choices : List String) (tokens : List String) : Option String :=
  (choose_optsPass choices tokens).map arr2str

/-- State of the variable-mode option-sampling loop of source `main`
(lines 332-341): the option set and the accepted-answer set, both Python
sets modelled as duplicate-free accumulation lists. -/
structure VarOptState where
  options : List String
  answer : List String
deriving DecidableEq

/-- Loop state at entry (source line 325 and 332): both sets start as the
singleton of the drawn answer string. -/
def varOptInit (a : String) : VarOptState := ⟨[a], [a]⟩

/-- One iteration of the sampling loop body (source lines 334-341) at sampled
index `j`: a value already among the options is skipped; a value of a
different question becomes a distractor; a value of the same question is
folded into the accepted answers (and shown) exactly when `multiple_answers`
is enabled, and is skipped otherwise. -/
def varOptStep (questions answers : List String) (question : String) (ma : Bool)
    (st : VarOptState) (j : Fin answers.length) : VarOptState :=
  let option := answers.get j
  if option ∈ st.options then st
  else if question ≠ questions.getD (j : Nat) "" then
    { st with options := option :: st.options }
  else if ma then
    { options := option :: st.options,
      answer := if option ∈ st.answer then st.answer else option :: st.answer }
  else st

/-- The sampling loop (source lines 333-341) driven by an explicit list of
sampled indices (the source draws them with `random.randint`): iterate the
body while the option set is smaller than `n_opts`. -/
def varOptRun (questions answers : List String) (question : String) (ma : Bool)
    (n_opts : Nat) : List (Fin answers.length) → VarOptState → VarOptState
  | [], st => st
  | j :: rest, st =>
    if st.options.length < n_opts then
      varOptRun questions answers question ma n_opts rest
        (varOptStep questions answers question ma st j)
    else st

/-- C1: the claim asserts that an interactive run never dies with an uncaught
runtime exception, naming the integer option-count prompt and the
correct-answer removal loop.  Both named places raise.  First conjunct: at the
option-count prompt (`choose_int('number of options', 2, min(8, n), [0])`) a
non-integer input such as `"abc"` raises `TypeError`, because after the failed
`int(choice)` conversion the range check `lower <= choice <= upper` still runs
with `choice` bound to the string.  Second conjunct: after a correct answer
whose accepted set was expanded by variable-mode fold-in across rounds, the
removal loop calls `questionnaire.remove` on a pair `("Q","A1")` that an
earlier round already removed, raising `ValueError`. -/
theorem C1_uncaughtRuntimeErrors :
    choose_intRound 2 8 [0] "abc" = Except.error PyExn.typeError
    ∧ removeAnswered [("Q", "A2"), ("R", "B")] "Q" ["A1", "A2"]
        = Except.error PyExn.valueError :=
  ⟨rfl, rfl⟩

/-- C2: the claim asserts that the island-or-not predicate is a function of
the island answer alone, with "island" selecting exactly the empty-borders
records.  The code instead builds the predicate from the stale `choice`
variable of the independence prompt.  Conjuncts: with independence answered
"yes" and island answered "yes", a borderless record is rejected and a
bordered record accepted (the opposite of the claim); the predicate is
literally independent of the island answer; and it flips when only the
independence answer changes. -/
theorem C2_islandConditionUsesIndependenceChoice :
    islandOrNotCond "yes" "yes" ⟨true, []⟩ = false
    ∧ islandOrNotCond "yes" "yes" ⟨true, ["AUT"]⟩ = true
    ∧ (∀ island₁ island₂ : String,
        islandOrNotCond "yes" island₁ = islandOrNotCond "yes" island₂)
    ∧ islandOrNotCond "no" "yes" ⟨true, []⟩ = true :=
  ⟨rfl, rfl, fun _ _ => rfl, rfl⟩

/-- C3 counterexample: with three distinct answers but a duplicated question
label, the option count 0 (free text) is rejected — the claim says 0 is
accepted unconditionally.  Also: a full unique-answer count of 10 is rejected
even with distinct labels (it exceeds `min(8, n)` and is not the sentinel),
and a full count of 5 is accepted although the labels are duplicated. -/
theorem C3_counterexample :
    acceptedNOpts 3 ["q", "q"] 0 = false
    ∧ acceptedNOpts 10 ["a", "b"] 10 = false
    ∧ acceptedNOpts 5 ["q", "q"] 5 = true := by
  decide

/-- C3 (amended): the option-count prompt accepts 0 (free text) exactly when
the question labels are pairwise distinct, any fixed size in
`2..min(8, uniqueAnswerCount)` unconditionally, and hence the full
unique-answer count exactly when that count is at most 8 (with no label
condition); choosing the full unique-answer count selects exact mode: one
fixed sorted option list shared by all questions, multi-select disabled. -/
theorem C3_optionCountAcceptance (n_answers : Nat) (questions : List String)
    (k : Int) (ask_topic : Bool) (answers : List String)
    (hn : 2 ≤ n_answers) (ha : 2 ≤ answers.dedup.length) :
    (acceptedNOpts n_answers questions k = true ↔
      ((2 ≤ k ∧ k ≤ min 8 (n_answers : Int)) ∨ (k = 0 ∧ questions.Nodup)))
    ∧ (acceptedNOpts n_answers questions (n_answers : Int) = true ↔ (n_answers : Int) ≤ 8)
    ∧ (optMode ((answers.dedup.length : Nat) : Int) ask_topic answers).no_opts = false
    ∧ (optMode ((answers.dedup.length : Nat) : Int) ask_topic answers).var_opts = false
    ∧ (optMode ((answers.dedup.length : Nat) : Int) ask_topic answers).multiple_answers = false
    ∧ (optMode ((answers.dedup.length : Nat) : Int) ask_topic answers).options
        = pySorted answers.dedup := by
  have hcast : (2 : Int) ≤ (n_answers : Int) := by exact_mod_cast hn
  have hchar : ∀ m : Int, acceptedNOpts n_answers questions m = true ↔
      ((2 ≤ m ∧ m ≤ min 8 (n_answers : Int)) ∨ (m = 0 ∧ questions.Nodup)) := by
    intro m
    by_cases h : questions.Nodup <;> simp [acceptedNOpts, h]
  have hopt : optMode ((answers.dedup.length : Nat) : Int) ask_topic answers
      = ⟨false, false, false, pySorted answers.dedup⟩ := by
    have h0 : (0 : Int) < ((answers.dedup.length : Nat) : Int) := by
      exact_mod_cast (by omega : 0 < answers.dedup.length)
    simp only [optMode]
    rw [if_pos h0, if_pos trivial]
  refine ⟨hchar k, ?_, ?_, ?_, ?_, ?_⟩
  · rw [hchar]
    constructor
    · rintro (⟨-, h2⟩ | ⟨h1, -⟩)
      · exact le_trans h2 (min_le_left _ _)
      · omega
    · intro h8
      exact Or.inl ⟨hcast, le_min h8 le_rfl⟩
  · rw [hopt]
  · rw [hopt]
  · rw [hopt]
  · rw [hopt]

/-- C3 witness: the amended acceptance test and exact-mode selection at a
concrete configuration. -/
theorem C3_optionCountAcceptance_witness :
    acceptedNOpts 3 ["a", "b"] 0 = true
    ∧ (optMode ((["x", "y", "z"].dedup.length : Nat) : Int) true ["x", "y", "z"]).options
        = pySorted ["x", "y", "z"].dedup :=
  ⟨(C3_optionCountAcceptance 3 ["a", "b"] 0 true ["x", "y", "z"] (by decide)
      (by decide)).1.mpr (Or.inr ⟨by decide, by decide⟩),
   (C3_optionCountAcceptance 3 ["a", "b"] 0 true ["x", "y", "z"] (by decide)
      (by decide)).2.2.2.2.2⟩

/-- C9: with fewer than 2 distinct answer values, the session reports the
error exactly once and ends without the option-count prompt and without the
quiz loop; with 2 or more distinct values it proceeds to the prompt and the
quiz loop. -/
theorem C9_answerCountGate (answers : List String) :
    (answers.dedup.length < 2 →
      answerGate answers = [SessionEv.errNotEnough]
      ∧ (answerGate answers).count SessionEv.errNotEnough = 1
      ∧ SessionEv.promptNOpts ∉ answerGate answers
      ∧ SessionEv.enterQuiz ∉ answerGate answers)
    ∧ (2 ≤ answers.dedup.length →
      answerGate answers = [SessionEv.promptNOpts, SessionEv.enterQuiz]
      ∧ SessionEv.errNotEnough ∉ answerGate answers) := by
  constructor
  · intro h
    have e : answerGate answers = [SessionEv.errNotEnough] := by
      simp only [answerGate, if_pos h]
    refine ⟨e, ?_, ?_, ?_⟩ <;> rw [e] <;> decide
  · intro h
    have h2 : ¬ answers.dedup.length < 2 := by omega
    have e : answerGate answers = [SessionEv.promptNOpts, SessionEv.enterQuiz] := by
      simp only [answerGate, if_neg h2]
    exact ⟨e, by rw [e]; decide⟩

lemma varOptStep_options_subset (questions answers : List String) (question : String)
    (ma : Bool) (st : VarOptState) (j : Fin answers.length) :
    st.options ⊆ (varOptStep questions answers question ma st j).options := by
  simp only [varOptStep]
  split_ifs <;> first
    | exact fun x hx => hx
    | exact fun x hx => List.mem_cons_of_mem _ hx

lemma varOptStep_options_length_le (questions answers : List String) (question : String)
    (ma : Bool) (st : VarOptState) (j : Fin answers.length) :
    (varOptStep questions answers question ma st j).options.length ≤ st.options.length + 1 := by
  simp only [varOptStep]
  split_ifs <;> simp

lemma varOptStep_mem_of_ma (questions answers : List String) (question : String)
    (st : VarOptState) (j : Fin answers.length) :
    answers.get j ∈ (varOptStep questions answers question true st j).options := by
  simp only [varOptStep]
  split_ifs with h1 h2 h3
  · exact h1
  · exact List.mem_cons_self _ _
  · exact List.mem_cons_self _ _
  · exact List.mem_cons_self _ _

lemma varOptStep_answer_subset (questions answers : List String) (question : String)
    (ma : Bool) (st : VarOptState) (j : Fin answers.length)
    (h : ∀ x ∈ st.answer, x ∈ st.options) :
    ∀ x ∈ (varOptStep questions answers question ma st j).answer,
      x ∈ (varOptStep questions answers question ma st j).options := by
  simp only [varOptStep]
  split_ifs with h1 h2 h3 h4
  · exact h
  · exact fun x hx => List.mem_cons_of_mem _ (h x hx)
  · exact fun x hx => List.mem_cons_of_mem _ (h x hx)
  · intro x hx
    rcases List.mem_cons.mp hx with h5 | h5
    · exact h5 ▸ List.mem_cons_self _ _
    · exact List.mem_cons_of_mem _ (h x h5)
  · exact h

lemma varOptRun_options_subset (questions answers : List String) (question : String)
    (ma : Bool) (n_opts : Nat) (samples : List (Fin answers.length)) (st : VarOptState) :
    st.options ⊆ (varOptRun questions answers question ma n_opts samples st).options := by
  induction samples generalizing st with
  | nil => exact fun x hx => hx
  | cons j rest ih =>
    show st.options ⊆ (varOptRun questions answers question ma n_opts (j :: rest) st).options
    rw [varOptRun]
    split_ifs
    · exact fun x hx =>
        ih (varOptStep questions answers question ma st j)
          (varOptStep_options_subset questions answers question ma st j hx)
    · exact fun x hx => hx

lemma varOptRun_length_le (questions answers : List String) (question : String)
    (ma : Bool) (n_opts : Nat) (samples : List (Fin answers.length)) (st : VarOptState)
    (h : st.options.length ≤ n_opts) :
    (varOptRun questions answers question ma n_opts samples st).options.length ≤ n_opts := by
  induction samples generalizing st with
  | nil => exact h
  | cons j rest ih =>
    rw [varOptRun]
    split_ifs with hg
    · exact ih _ (by
        have := varOptStep_options_length_le questions answers question ma st j
        omega)
    · exact h

lemma varOptRun_answer_subset (questions answers : List String) (question : String)
    (ma : Bool) (n_opts : Nat) (samples : List (Fin answers.length)) (st : VarOptState)
    (h : ∀ x ∈ st.answer, x ∈ st.options) :
    ∀ x ∈ (varOptRun questions answers question ma n_opts samples st).answer,
      x ∈ (varOptRun questions answers question ma n_opts samples st).options := by
  induction samples generalizing st with
  | nil => exact h
  | cons j rest ih =>
    rw [varOptRun]
    split_ifs
    · exact ih _ (varOptStep_answer_subset questions answers question ma st j h)
    · exact h

lemma varOptRun_visits (questions answers : List String) (question : String)
    (n_opts : Nat) (samples : List (Fin answers.length)) (st : VarOptState)
    (hlt : (varOptRun questions answers question true n_opts samples st).options.length < n_opts) :
    ∀ j ∈ samples,
      answers.get j ∈ (varOptRun questions answers question true n_opts samples st).options := by
  induction samples generalizing st with
  | nil => intro j hj; exact absurd hj (List.not_mem_nil j)
  | cons j rest ih =>
    rw [varOptRun] at hlt ⊢
    split_ifs at hlt ⊢ with hg
    · intro j' hj'
      rcases List.mem_cons.mp hj' with h1 | h1
      · subst h1
        exact varOptRun_options_subset questions answers question true n_opts rest _
          (varOptStep_mem_of_ma questions answers question st j')
      · exact ih _ hlt j' h1
    · exact absurd hlt (by omega)

/-- C8 counterexample: the claim's termination clause fails.  A pool with two
distinct values (`["A", "B"]` for the duplicated question label `"Q"`), drawn
pair `("Q", "A")`, requested size 2 and multi-answer acceptance disabled: the
value `"B"` belongs only to the drawn question, so no sequence of samples ever
grows the option set beyond the single drawn answer, and the loop never
reaches the requested size. -/
theorem C8_counterexample :
    (["A", "B"] : List String).dedup.length = 2
    ∧ ∀ samples : List (Fin (["A", "B"] : List String).length),
        (varOptRun ["Q", "Q"] ["A", "B"] "Q" false 2 samples
          (varOptInit "A")).options.length < 2 := by
  have hstep : ∀ j : Fin (["A", "B"] : List String).length,
      varOptStep ["Q", "Q"] ["A", "B"] "Q" false (varOptInit "A") j = varOptInit "A" := by
    decide
  have hrun : ∀ samples : List (Fin (["A", "B"] : List String).length),
      varOptRun ["Q", "Q"] ["A", "B"] "Q" false 2 samples (varOptInit "A")
        = varOptInit "A" := by
    intro samples
    induction samples with
    | nil => rfl
    | cons j rest ih =>
      rw [varOptRun, if_pos (by decide), hstep j, ih]
  exact ⟨by decide, fun samples => by rw [hrun samples]; decide⟩

/-- C8 (amended): in variable mode the option set always contains the drawn
answer and every folded-in accepted answer; a sampled value not yet among the
options becomes a distractor when it belongs to a different question, is
folded into the accepted answers (and displayed) exactly when it belongs to
the same question and multi-answer acceptance is enabled, and is skipped
otherwise; the option set never exceeds the requested size; and when
multi-answer acceptance is enabled, a pool holding at least `requestedCount`
distinct values lets the loop reach exactly `requestedCount` options (sampling
every index suffices).  With fold-in disabled the requested size can be
unreachable (`C8_counterexample`), so the claim's unconditional termination
clause is weakened to the fold-in-enabled case. -/
theorem C8_variableModeOptions (questions answers : List String) (question a : String)
    (ma : Bool) (n_opts : Nat) (samples : List (Fin answers.length)) :
    (a ∈ (varOptRun questions answers question ma n_opts samples (varOptInit a)).options
      ∧ ∀ x ∈ (varOptRun questions answers question ma n_opts samples (varOptInit a)).answer,
          x ∈ (varOptRun questions answers question ma n_opts samples (varOptInit a)).options)
    ∧ (∀ (st : VarOptState) (j : Fin answers.length),
        (answers.get j ∈ st.options → varOptStep questions answers question ma st j = st)
        ∧ (answers.get j ∉ st.options → question ≠ questions.getD (j : Nat) "" →
            varOptStep questions answers question ma st j
              = { st with options := answers.get j :: st.options })
        ∧ (answers.get j ∉ st.options → question = questions.getD (j : Nat) "" → ma = true →
            varOptStep questions answers question ma st j
              = { options := answers.get j :: st.options,
                  answer := if answers.get j ∈ st.answer then st.answer
                            else answers.get j :: st.answer })
        ∧ (answers.get j ∉ st.options → question = questions.getD (j : Nat) "" → ma = false →
            varOptStep questions answers question ma st j = st))
    ∧ (1 ≤ n_opts →
        (varOptRun questions answers question ma n_opts samples
          (varOptInit a)).options.length ≤ n_opts)
    ∧ (ma = true → a ∈ answers → n_opts ≤ answers.dedup.length → 1 ≤ n_opts →
        (varOptRun questions answers question ma n_opts
          (List.finRange answers.length) (varOptInit a)).options.length = n_opts) := by
  refine ⟨⟨?_, ?_⟩, ?_, ?_, ?_⟩
  · exact varOptRun_options_subset questions answers question ma n_opts samples
      (varOptInit a) (List.mem_cons_self a [])
  · exact varOptRun_answer_subset questions answers question ma n_opts samples
      (varOptInit a) (fun x hx => hx)
  · intro st j
    refine ⟨?_, ?_, ?_, ?_⟩
    · intro h1
      simp only [varOptStep]
      rw [if_pos h1]
    · intro h1 h2
      simp only [varOptStep]
      rw [if_neg h1, if_pos h2]
    · intro h1 h2 h3
      subst h3
      simp only [varOptStep]
      rw [if_neg h1, if_neg (by simpa using h2), if_pos trivial]
    · intro h1 h2 h3
      subst h3
      simp only [varOptStep]
      rw [if_neg h1, if_neg (by simpa using h2), if_neg (by decide)]
  · intro h1
    exact varOptRun_length_le questions answers question ma n_opts samples
      (varOptInit a) (by simpa [varOptInit] using h1)
  · intro hma hmem hcount hpos
    subst hma
    have hle : (varOptRun questions answers question true n_opts
        (List.finRange answers.length) (varOptInit a)).options.length ≤ n_opts :=
      varOptRun_length_le questions answers question true n_opts _
        (varOptInit a) (by simpa [varOptInit] using hpos)
    rcases lt_or_eq_of_le hle with hlt | heq
    · exfalso
      have hvisit := varOptRun_visits questions answers question n_opts
        (List.finRange answers.length) (varOptInit a) hlt
      have hsub : answers.dedup ⊆ (varOptRun questions answers question true n_opts
          (List.finRange answers.length) (varOptInit a)).options := by
        intro x hx
        have hx' : x ∈ answers := List.dedup_subset _ hx
        rcases List.mem_iff_get.mp hx' with ⟨j, hj⟩
        exact hj ▸ hvisit j (List.mem_finRange j)
      have := (List.nodup_dedup answers).subperm hsub |>.length_le
      omega
    · exact heq

/-- C8 witness: a three-question pool with multi-answer acceptance enabled
reaches exactly the requested 2 options, containing the drawn answer. -/
theorem C8_variableModeOptions_witness :
    (varOptRun ["Q1", "Q2", "Q3"] ["x", "y", "z"] "Q1" true 2
      (List.finRange (["x", "y", "z"] : List String).length)
      (varOptInit "x")).options.length = 2
    ∧ "x" ∈ (varOptRun ["Q1", "Q2", "Q3"] ["x", "y", "z"] "Q1" true 2
      (List.finRange (["x", "y", "z"] : List String).length)
      (varOptInit "x")).options :=
  ⟨(C8_variableModeOptions ["Q1", "Q2", "Q3"] ["x", "y", "z"] "Q1" "x" true 2
      (List.finRange (["x", "y", "z"] : List String).length)).2.2.2 rfl (by decide)
      (by decide) (by decide),
   (C8_variableModeOptions ["Q1", "Q2", "Q3"] ["x", "y", "z"] "Q1" "x" true 2
      (List.finRange (["x", "y", "z"] : List String).length)).1.1⟩

/-- C9 witness: the gate at a one-answer pool and at a two-answer pool. -/
theorem C9_answerCountGate_witness :
    answerGate ["a"] = [SessionEv.errNotEnough]
    ∧ answerGate ["a", "b"] = [SessionEv.promptNOpts, SessionEv.enterQuiz] :=
  ⟨((C9_answerCountGate ["a"]).1 (by decide)).1,
   ((C9_answerCountGate ["a", "b"]).2 (by decide)).1⟩

lemma charToNat_inj {a b : Char} (h : a.toNat = b.toNat) : a = b :=
  Char.ext (UInt32.ext h)

lemma lexLe_refl (a : List Char) : lexLe a a = true := by
  induction a with
  | nil => rfl
  | cons x xs ih => simp [lexLe, Nat.lt_irrefl, ih]

lemma lexLe_total (a b : List Char) : lexLe a b = true ∨ lexLe b a = true := by
  induction a generalizing b with
  | nil => exact Or.inl rfl
  | cons x xs ih =>
    cases b with
    | nil => exact Or.inr rfl
    | cons y ys =>
      rcases Nat.lt_trichotomy x.toNat y.toNat with h | h | h
      · exact Or.inl (by simp [lexLe, h])
      · rcases ih ys with h2 | h2
        · exact Or.inl (by simp [lexLe, h, Nat.lt_irrefl, h2])
        · exact Or.inr (by simp [lexLe, ← h, Nat.lt_irrefl, h2])
      · exact Or.inr (by simp [lexLe, h])

lemma lexLe_trans (a b c : List Char) (hab : lexLe a b = true)
    (hbc : lexLe b c = true) : lexLe a c = true := by
  induction a generalizing b c with
  | nil => rfl
  | cons x xs ih =>
    cases b with
    | nil => simp [lexLe] at hab
    | cons y ys =>
      cases c with
      | nil => simp [lexLe] at hbc
      | cons z zs =>
        simp only [lexLe] at hab hbc ⊢
        by_cases h1 : x.toNat < y.toNat <;> by_cases h2 : y.toNat < z.toNat
        · rw [if_pos (by omega)]
        · rw [if_neg h2] at hbc
          by_cases h3 : y.toNat = z.toNat
          · rw [if_pos (by omega)]
          · rw [if_neg h3] at hbc
            exact absurd hbc (by decide)
        · rw [if_neg h1] at hab
          by_cases h4 : x.toNat = y.toNat
          · rw [if_pos (by omega)]
          · rw [if_neg h4] at hab
            exact absurd hab (by decide)
        · rw [if_neg h1] at hab
          rw [if_neg h2] at hbc
          by_cases h4 : x.toNat = y.toNat
          · rw [if_pos h4] at hab
            by_cases h3 : y.toNat = z.toNat
            · rw [if_pos h3] at hbc
              rw [if_neg (by omega), if_pos (by omega)]
              exact ih ys zs hab hbc
            · rw [if_neg h3] at hbc
              exact absurd hbc (by decide)
          · rw [if_neg h4] at hab
            exact absurd hab (by decide)

lemma lexLe_antisymm (a b : List Char) (hab : lexLe a b = true)
    (hba : lexLe b a = true) : a = b := by
  induction a generalizing b with
  | nil =>
    cases b with
    | nil => rfl
    | cons y ys => simp [lexLe] at hba
  | cons x xs ih =>
    cases b with
    | nil => simp [lexLe] at hab
    | cons y ys =>
      simp only [lexLe] at hab hba
      by_cases h1 : x.toNat < y.toNat
      · rw [if_neg (by omega), if_neg (by omega)] at hba
        exact absurd hba (by decide)
      · by_cases h2 : x.toNat = y.toNat
        · rw [if_neg h1, if_pos h2] at hab
          rw [if_neg (by omega), if_pos (by omega)] at hba
          rw [charToNat_inj h2, ih ys hab hba]
        · rw [if_neg h1, if_neg h2] at hab
          exact absurd hab (by decide)

instance : IsTrans String pyLe :=
  ⟨fun a b c => lexLe_trans a.data b.data c.data⟩

instance : IsAntisymm String pyLe :=
  ⟨fun a b hab hba => String.ext (lexLe_antisymm a.data b.data hab hba)⟩

instance : IsTotal String pyLe :=
  ⟨fun a b => lexLe_total a.data b.data⟩

lemma pySorted_sorted (l : List String) : List.Sorted pyLe (pySorted l) :=
  List.sorted_insertionSort pyLe l

lemma pySorted_perm (l : List String) : (pySorted l).Perm l :=
  List.perm_insertionSort pyLe l

/-- Joined output of `arr2str` depends only on the multiset of entries. -/
lemma arr2str_congr_perm (l l' : List String) (h : l.Perm l') :
    arr2str l = arr2str l' := by
  unfold arr2str
  have : pySorted l = pySorted l' :=
    List.eq_of_perm_of_sorted ((pySorted_perm l).trans (h.trans (pySorted_perm l').symm))
      (pySorted_sorted l) (pySorted_sorted l')
  rw [this]

lemma toFinset_map_eq_image {α β : Type} [DecidableEq α] [DecidableEq β]
    (f : α → β) (l : List α) : (l.map f).toFinset = l.toFinset.image f := by
  induction l with
  | nil => simp
  | cons x xs ih => simp [ih]

lemma choose_optsPass_spec (choices : List String) (tokens : List String) :
    ∀ acc : List String,
      (∀ tok ∈ tokens, tok.data ≠ [] ∧ tok.data.all Char.isDigit = true
        ∧ 0 ≤ (digitsVal tok.data : Int) - 1
        ∧ (digitsVal tok.data : Int) - 1 < (choices.length : Int)) →
      ∃ l, List.foldlM (choose_optsStep choices) acc tokens = some l
        ∧ l.toFinset = acc.toFinset ∪
            (tokens.map
              (fun tok => choices.getD ((digitsVal tok.data : Int) - 1).toNat "")).toFinset
        ∧ (acc.Nodup → l.Nodup) := by
  induction tokens with
  | nil =>
    intro acc _
    exact ⟨acc, rfl, by simp, fun h => h⟩
  | cons tok rest ih =>
    intro acc hv
    have htok := hv tok (List.mem_cons_self tok rest)
    have hrest : ∀ t ∈ rest, t.data ≠ [] ∧ t.data.all Char.isDigit = true
        ∧ 0 ≤ (digitsVal t.data : Int) - 1
        ∧ (digitsVal t.data : Int) - 1 < (choices.length : Int) :=
      fun t ht => hv t (List.mem_cons_of_mem tok ht)
    have hstep : choose_optsStep choices acc tok
        = some (if choices.getD ((digitsVal tok.data : Int) - 1).toNat "" ∈ acc then acc
                else choices.getD ((digitsVal tok.data : Int) - 1).toNat "" :: acc) := by
      simp only [choose_optsStep]
      rw [if_pos ⟨htok.1, htok.2.1⟩, if_pos ⟨htok.2.2.1, htok.2.2.2⟩]
    by_cases hmem : choices.getD ((digitsVal tok.data : Int) - 1).toNat "" ∈ acc
    · rcases ih acc hrest with ⟨l, hl, hfin, hnd⟩
      refine ⟨l, ?_, ?_, hnd⟩
      · rw [List.foldlM_cons, hstep, Option.bind_eq_bind, Option.some_bind, if_pos hmem]
        exact hl
      · rw [hfin, List.map_cons, List.toFinset_cons, Finset.union_insert,
          Finset.insert_eq_self.mpr
            (Finset.mem_union_left _ (List.mem_toFinset.mpr hmem))]
    · rcases ih (choices.getD ((digitsVal tok.data : Int) - 1).toNat "" :: acc) hrest
        with ⟨l, hl, hfin, hnd⟩
      refine ⟨l, ?_, ?_, ?_⟩
      · rw [List.foldlM_cons, hstep, Option.bind_eq_bind, Option.some_bind, if_neg hmem]
        exact hl
      · rw [hfin, List.map_cons, List.toFinset_cons, List.toFinset_cons,
          Finset.insert_union, Finset.union_insert]
      · intro hacc
        exact hnd (List.nodup_cons.mpr ⟨hmem, hacc⟩)

/-- C10: the correctness verdict of a multiple-choice question depends only on
the set of distinct option indices the user submits: any two all-valid token
lists (duplicates and reordering allowed) inducing the same index set lead to
the same joined choice string (the source collects the chosen option strings
into a set, then sorts and delimiter-joins), hence the same verdict; and a
pass over valid tokens always succeeds. -/
theorem C10_choiceVerdictSetInvariance (choices t₁ t₂ : List String)
    (h₁ : ∀ tok ∈ t₁, tok.data ≠ [] ∧ tok.data.all Char.isDigit = true
      ∧ 0 ≤ (digitsVal tok.data : Int) - 1
      ∧ (digitsVal tok.data : Int) - 1 < (choices.length : Int))
    (h₂ : ∀ tok ∈ t₂, tok.data ≠ [] ∧ tok.data.all Char.isDigit = true
      ∧ 0 ≤ (digitsVal tok.data : Int) - 1
      ∧ (digitsVal tok.data : Int) - 1 < (choices.length : Int))
    (hidx : (t₁.map fun tok => ((digitsVal tok.data : Int) - 1).toNat).toFinset
          = (t₂.map fun tok => ((digitsVal tok.data : Int) - 1).toNat).toFinset) :
    choose_optsResult choices t₁ = choose_optsResult choices t₂
    ∧ ∃ s, choose_optsResult choices t₁ = some s := by
  rcases choose_optsPass_spec choices t₁ [] h₁ with ⟨l₁, hl₁, hfin₁, hnd₁⟩
  rcases choose_optsPass_spec choices t₂ [] h₂ with ⟨l₂, hl₂, hfin₂, hnd₂⟩
  have hmap : ∀ t : List String,
      (t.map (fun tok => choices.getD ((digitsVal tok.data : Int) - 1).toNat "")).toFinset
      = ((t.map fun tok => ((digitsVal tok.data : Int) - 1).toNat).toFinset).image
          (fun i => choices.getD i "") := by
    intro t
    rw [← toFinset_map_eq_image, List.map_map]
    rfl
  have hfineq : l₁.toFinset = l₂.toFinset := by
    rw [hfin₁, hfin₂, hmap t₁, hmap t₂, hidx]
  have hperm : l₁.Perm l₂ :=
    List.perm_of_nodup_nodup_toFinset_eq (hnd₁ List.nodup_nil) (hnd₂ List.nodup_nil) hfineq
  constructor
  · show (choose_optsPass choices t₁).map arr2str = (choose_optsPass choices t₂).map arr2str
    rw [show choose_optsPass choices t₁ = some l₁ from hl₁,
      show choose_optsPass choices t₂ = some l₂ from hl₂]
    simp only [Option.map_some']
    rw [arr2str_congr_perm l₁ l₂ hperm]
  · exact ⟨arr2str l₁, by
      show (choose_optsPass choices t₁).map arr2str = some (arr2str l₁)
      rw [show choose_optsPass choices t₁ = some l₁ from hl₁]
      rfl⟩

/-- C10 witness: duplicated and reordered index tokens produce the same joined
choice string on a concrete two-option question. -/
theorem C10_choiceVerdictSetInvariance_witness :
    choose_optsResult ["x", "y"] ["1", "2", "1"] = choose_optsResult ["x", "y"] ["2", "1"] :=
  (C10_choiceVerdictSetInvariance ["x", "y"] ["1", "2", "1"] ["2", "1"]
    (by decide) (by decide) (by decide)).1

lemma lookupCharTable_mem {β : Type} (tbl : List (Char × β)) (k : Char) (v : β)
    (h : tbl.lookup k = some v) : (k, v) ∈ tbl := by
  induction tbl with
  | nil => simp [List.lookup] at h
  | cons hd tl ih =>
    rcases hd with ⟨k', v'⟩
    by_cases hk : k = k'
    · subst hk
      simp [List.lookup] at h
      subst h
      exact List.mem_cons_self _ _
    · have hbeq : (k == k') = false := beq_eq_false_iff_ne.mpr hk
      simp only [List.lookup, hbeq] at h
      exact List.mem_cons_of_mem _ (ih h)

lemma nfdTable_outputs :
    ∀ p ∈ nfdTable, ∀ d ∈ p.2, mnMarks.contains d = true ∨ inertChar d = true := by
  decide

lemma lowerTable_inert :
    ∀ p ∈ lowerTable, inertChar p.1 = true →
      inertChar p.2 = true ∧ lowerTable.lookup p.2 = none := by
  decide

lemma inertChar_lookup_none {c : Char} (h : inertChar c = true) :
    nfdTable.lookup c = none := by
  unfold inertChar at h
  rw [Bool.and_eq_true] at h
  exact Option.isNone_iff_eq_none.mp h.1

lemma inertChar_not_mark {c : Char} (h : inertChar c = true) :
    mnMarks.contains c = false := by
  unfold inertChar at h
  rw [Bool.and_eq_true] at h
  simpa using h.2

lemma normalizeChars_inert (l : List Char) :
    ∀ c ∈ normalizeChars l, inertChar c = true := by
  intro c hc
  unfold normalizeChars at hc
  rw [List.mem_filter] at hc
  rcases hc with ⟨hmem, hmn⟩
  rw [List.mem_flatMap] at hmem
  rcases hmem with ⟨d, hd, hcd⟩
  have hmn' : mnMarks.contains c = false := by simpa using hmn
  cases hl : nfdTable.lookup d with
  | none =>
    have hdc : c = d := by
      have e : nfdChar d = [d] := by simp [nfdChar, hl]
      rw [e] at hcd
      simpa using hcd
    subst hdc
    unfold inertChar
    rw [hl, hmn']
    rfl
  | some ds =>
    have hpd : (d, ds) ∈ nfdTable := lookupCharTable_mem _ _ _ hl
    have hc' : c ∈ ds := by
      have e : nfdChar d = ds := by simp [nfdChar, hl]
      rwa [e] at hcd
    rcases nfdTable_outputs (d, ds) hpd c hc' with h | h
    · rw [h] at hmn'
      exact absurd hmn' (by decide)
    · exact h

lemma normalizeChars_fixed (l : List Char) (h : ∀ c ∈ l, inertChar c = true) :
    normalizeChars l = l := by
  induction l with
  | nil => rfl
  | cons c t ih =>
    have hc := h c (List.mem_cons_self c t)
    unfold normalizeChars
    rw [List.flatMap_cons, List.filter_append]
    have h1 : nfdChar c = [c] := by simp [nfdChar, inertChar_lookup_none hc]
    rw [h1]
    have hnm : c ∉ mnMarks := by simpa using inertChar_not_mark hc
    have h2 : List.filter (fun x => !mnMarks.contains x) [c] = [c] := by
      simp [hnm]
    rw [h2]
    have h3 := ih (fun c' hc' => h c' (List.mem_cons_of_mem _ hc'))
    unfold normalizeChars at h3
    rw [h3]
    rfl

lemma lowerChar_inert_fixed (c : Char) (h : inertChar c = true) :
    inertChar (lowerChar c) = true ∧ lowerChar (lowerChar c) = lowerChar c := by
  cases hl : lowerTable.lookup c with
  | none =>
    have e : lowerChar c = c := by simp [lowerChar, hl]
    rw [e]
    exact ⟨h, e⟩
  | some v =>
    have hpd : (c, v) ∈ lowerTable := lookupCharTable_mem _ _ _ hl
    have hv := lowerTable_inert (c, v) hpd h
    have h1 : lowerChar c = v := by simp [lowerChar, hl]
    have h2 : lowerChar v = v := by simp [lowerChar, hv.2]
    rw [h1]
    exact ⟨hv.1, h2⟩

lemma replDbl_props :
    ∀ (n : Nat) (l : List Char), l.length ≤ n →
      (replDbl l).length ≤ l.length
      ∧ (hasDbl l = true → (replDbl l).length < l.length)
      ∧ (∀ c ∈ replDbl l, c ∈ l) := by
  intro n
  induction n with
  | zero =>
    intro l hlen
    have he : l = [] := List.length_eq_zero.mp (by omega)
    subst he
    exact ⟨le_rfl, fun hh => by simp [hasDbl] at hh, fun c hc => hc⟩
  | succ m ih =>
    intro l hlen
    match l with
    | [] => exact ⟨le_rfl, fun hh => by simp [hasDbl] at hh, fun c hc => hc⟩
    | [c] => exact ⟨le_rfl, fun hh => by simp [hasDbl] at hh, fun c hc => hc⟩
    | a :: b :: t =>
      have erepl : replDbl (a :: b :: t)
          = if a = ' ' ∧ b = ' ' then ' ' :: replDbl t else a :: replDbl (b :: t) := rfl
      have edbl : hasDbl (a :: b :: t)
          = if a = ' ' ∧ b = ' ' then true else hasDbl (b :: t) := rfl
      have hlt : t.length ≤ m := by
        simp only [List.length_cons] at hlen
        omega
      by_cases hab : a = ' ' ∧ b = ' '
      · have ht := ih t hlt
        rw [erepl, if_pos hab]
        refine ⟨?_, fun _ => ?_, ?_⟩
        · simp only [List.length_cons]
          omega
        · simp only [List.length_cons]
          omega
        · intro c hc
          rcases List.mem_cons.mp hc with h1 | h1
          · rw [h1, ← hab.1]
            exact List.mem_cons_self _ _
          · exact List.mem_cons_of_mem _ (List.mem_cons_of_mem _ (ht.2.2 c h1))
      · have hbt := ih (b :: t) (by simp only [List.length_cons] at hlen ⊢; omega)
        rw [erepl, if_neg hab, edbl, if_neg hab]
        refine ⟨?_, fun hh => ?_, ?_⟩
        · simp only [List.length_cons]
          have := hbt.1
          simp only [List.length_cons] at this ⊢
          omega
        · have := hbt.2.1 hh
          simp only [List.length_cons] at this ⊢
          omega
        · intro c hc
          rcases List.mem_cons.mp hc with h1 | h1
          · rw [h1]
            exact List.mem_cons_self _ _
          · exact List.mem_cons_of_mem _ (hbt.2.2 c h1)

lemma collapseLoop_facts :
    ∀ (fuel : Nat) (l : List Char), l.length ≤ fuel →
      hasDbl (collapseLoop fuel l) = false
      ∧ ∀ c ∈ collapseLoop fuel l, c ∈ l := by
  intro fuel
  induction fuel with
  | zero =>
    intro l hlen
    have he : l = [] := List.length_eq_zero.mp (by omega)
    subst he
    exact ⟨rfl, fun c hc => hc⟩
  | succ m ih =>
    intro l hlen
    have e : collapseLoop (m + 1) l
        = if hasDbl l then collapseLoop m (replDbl l) else l := rfl
    by_cases hd : hasDbl l = true
    · rw [e, if_pos hd]
      have hrepl := replDbl_props (m + 1) l hlen
      have hlt := hrepl.2.1 hd
      have hm := ih (replDbl l) (by omega)
      exact ⟨hm.1, fun c hc => hrepl.2.2 c (hm.2 c hc)⟩
    · rw [e, if_neg hd]
      exact ⟨by simpa using hd, fun c hc => hc⟩

lemma collapseLoop_of_noDbl (fuel : Nat) (l : List Char) (h : hasDbl l = false) :
    collapseLoop fuel l = l := by
  cases fuel with
  | zero => rfl
  | succ m =>
    show (if hasDbl l then collapseLoop m (replDbl l) else l) = l
    rw [h]
    rfl

/-- C7: the text normalizer `adjust_str` (NFD-decompose, strip non-spacing
combining marks, lowercase, collapse space runs, over the modelled character
tables) is idempotent, and case/accent-insensitive on the claim's example:
`adjust_str "ÀLAND" = adjust_str "aland"`. -/
theorem C7_textNormalizerIdempotent :
    (∀ s : String, adjust_str (adjust_str s) = adjust_str s)
    ∧ adjust_str "ÀLAND" = adjust_str "aland" := by
  constructor
  · intro s
    apply String.ext
    have hdata : ∀ t : String, (adjust_str t).data
        = collapseLoop ((normalizeChars t.data).map lowerChar).length
            ((normalizeChars t.data).map lowerChar) := fun t => rfl
    have hchars : ∀ c ∈ (adjust_str s).data, inertChar c = true ∧ lowerChar c = c := by
      intro c hc
      rw [hdata] at hc
      have hc0 : c ∈ (normalizeChars s.data).map lowerChar :=
        (collapseLoop_facts ((normalizeChars s.data).map lowerChar).length
          ((normalizeChars s.data).map lowerChar) le_rfl).2 c hc
      rw [List.mem_map] at hc0
      rcases hc0 with ⟨d, hd, hcd⟩
      have hdin := normalizeChars_inert s.data d hd
      have hfix := lowerChar_inert_fixed d hdin
      rw [← hcd]
      exact hfix
    have h1 : normalizeChars (adjust_str s).data = (adjust_str s).data :=
      normalizeChars_fixed _ (fun c hc => (hchars c hc).1)
    have h2 : ((adjust_str s).data).map lowerChar = (adjust_str s).data := by
      have e : ((adjust_str s).data).map lowerChar = ((adjust_str s).data).map id :=
        List.map_congr_left (fun a ha => (hchars a ha).2)
      rw [e, List.map_id]
    have h3 : hasDbl (adjust_str s).data = false := by
      rw [hdata]
      exact (collapseLoop_facts ((normalizeChars s.data).map lowerChar).length
        ((normalizeChars s.data).map lowerChar) le_rfl).1
    rw [hdata (adjust_str s), h1, h2]
    exact collapseLoop_of_noDbl _ _ h3
  · decide

lemma digitChar_props (d : Nat) :
    (digitChar d).isDigit = true
    ∧ digitChar d ∉ siNegChars ∧ digitChar d ∉ siPosChars
    ∧ digitChar d ≠ '-' ∧ digitChar d ≠ '+' ∧ digitChar d ≠ '.'
    ∧ digitChar d ≠ 'e' ∧ digitChar d ≠ 'E' := by
  match d with
  | 0 => decide
  | 1 => decide
  | 2 => decide
  | 3 => decide
  | 4 => decide
  | 5 => decide
  | 6 => decide
  | 7 => decide
  | 8 => decide
  | _ + 9 =>
    show ('9'.isDigit = true) ∧ '9' ∉ siNegChars ∧ '9' ∉ siPosChars
      ∧ '9' ≠ '-' ∧ '9' ≠ '+' ∧ '9' ≠ '.' ∧ '9' ≠ 'e' ∧ '9' ≠ 'E'
    decide

lemma digitVal_digitChar (d : Nat) (h : d < 10) : digitVal (digitChar d) = d := by
  interval_cases d <;> decide

lemma digitsVal_append_singleton (xs : List Char) (c : Char) :
    digitsVal (xs ++ [c]) = 10 * digitsVal xs + digitVal c := by
  unfold digitsVal
  rw [List.foldl_append]
  rfl

lemma natToDigits_spec : ∀ (fuel n : Nat), n ≤ fuel →
    digitsVal (natToDigits fuel n) = n
    ∧ natToDigits fuel n ≠ []
    ∧ ∀ c ∈ natToDigits fuel n, ∃ k, k < 10 ∧ c = digitChar k := by
  intro fuel
  induction fuel with
  | zero =>
    intro n hn
    have hn0 : n = 0 := by omega
    subst hn0
    refine ⟨by decide, by decide, ?_⟩
    intro c hc
    simp [natToDigits] at hc
    exact ⟨0, by omega, hc⟩
  | succ f ih =>
    intro n hn
    by_cases h10 : n < 10
    · have e : natToDigits (f + 1) n = [digitChar n] := by simp [natToDigits, h10]
      rw [e]
      refine ⟨?_, by simp, ?_⟩
      · have e2 : digitsVal [digitChar n] = 10 * 0 + digitVal (digitChar n) := rfl
        rw [e2, digitVal_digitChar n h10]
        omega
      · intro c hc
        simp at hc
        exact ⟨n, h10, hc⟩
    · have e : natToDigits (f + 1) n = natToDigits f (n / 10) ++ [digitChar (n % 10)] := by
        simp [natToDigits, h10]
      have hdiv : n / 10 ≤ f := by
        have h1 : n / 10 < n := Nat.div_lt_self (by omega) (by omega)
        omega
      have ihd := ih (n / 10) hdiv
      rw [e]
      refine ⟨?_, by simp, ?_⟩
      · rw [digitsVal_append_singleton, ihd.1, digitVal_digitChar (n % 10) (by omega)]
        omega
      · intro c hc
        rcases List.mem_append.mp hc with h1 | h1
        · exact ihd.2.2 c h1
        · simp at h1
          exact ⟨n % 10, by omega, h1⟩

lemma natToDigits_isDigit {fuel n : Nat} (hn : n ≤ fuel) :
    ∀ c ∈ natToDigits fuel n, c.isDigit = true := by
  intro c hc
  rcases (natToDigits_spec fuel n hn).2.2 c hc with ⟨k, -, e⟩
  rw [e]
  exact (digitChar_props k).1

lemma natToDigits_single (B : Nat) (hB : B < 10) : natToDigits B B = [digitChar B] := by
  cases B with
  | zero => rfl
  | succ m => simp [natToDigits, hB]

lemma takeWhile_split (p : Char → Bool) (xs ys : List Char)
    (hx : ∀ c ∈ xs, p c = true)
    (hy : ∀ c, ys.head? = some c → p c = false) :
    (xs ++ ys).takeWhile p = xs ∧ (xs ++ ys).dropWhile p = ys := by
  induction xs with
  | nil =>
    simp only [List.nil_append]
    cases ys with
    | nil => exact ⟨rfl, rfl⟩
    | cons c t =>
      have hc := hy c rfl
      constructor
      · rw [List.takeWhile_cons, hc]
        rfl
      · rw [List.dropWhile_cons, hc]
        rfl
  | cons x xs ih =>
    have hpx := hx x (List.mem_cons_self x xs)
    have ihr := ih (fun c hc => hx c (List.mem_cons_of_mem _ hc))
    constructor
    · rw [List.cons_append, List.takeWhile_cons, hpx, if_pos rfl, ihr.1]
    · rw [List.cons_append, List.dropWhile_cons, hpx, if_pos rfl, ihr.2]

lemma takeWhile_all_of (p : Char → Bool) (xs : List Char)
    (hx : ∀ c ∈ xs, p c = true) :
    xs.takeWhile p = xs ∧ xs.dropWhile p = [] := by
  have h := takeWhile_split p xs [] hx (fun c hc => by simp at hc)
  simpa using h

lemma parseNumSign_cons_other (c : Char) (t : List Char) (h1 : c ≠ '-') (h2 : c ≠ '+') :
    parseNumSign (c :: t) = (false, c :: t) := by
  simp [parseNumSign, h1, h2]

lemma renderInt_data (N : Int) :
    (renderInt N).data = (if N < 0 then ['-'] else []) ++ natToDigits N.natAbs N.natAbs := by
  unfold renderInt natToStr
  by_cases h : N < 0 <;> simp [h, String.data_append]

lemma render1dpInt_data (M : Int) :
    (render1dpInt M).data = ((if M < 0 then ['-'] else []) ++ natToDigits (M.natAbs / 10) (M.natAbs / 10))
      ++ '.' :: natToDigits (M.natAbs % 10) (M.natAbs % 10) := by
  unfold render1dpInt natToStr
  by_cases h : M < 0 <;> simp [h, String.data_append]

lemma ratOfScaled_eq (n : Int) (z : Int) : ratOfScaled n z = (n : ℚ) * 10 ^ z := by
  unfold ratOfScaled
  by_cases h : 0 ≤ z
  · have h1 : (10:ℚ) ^ z = (10:ℚ) ^ z.toNat := by
      rw [← zpow_natCast]
      congr 1
      omega
    rw [if_pos h, Rat.mkRat_eq_div, h1]
    push_cast
    ring
  · have h1 : (10:ℚ) ^ z = ((10:ℚ) ^ (-z))⁻¹ := by
      rw [← zpow_neg, neg_neg]
    have h2 : (10:ℚ) ^ (-z) = (10:ℚ) ^ (-z).toNat := by
      rw [← zpow_natCast]
      congr 1
      omega
    rw [if_neg h, Rat.mkRat_eq_div, h1, h2]
    push_cast
    ring

lemma parseFrac_other (c : Char) (t : List Char) (h : c ≠ '.') :
    parseFrac (c :: t) = ([], c :: t) := by
  simp [parseFrac, h]

lemma parseExpTail_nil (m : Int) (sh : Nat) :
    parseExpTail m sh [] = some (ratOfScaled m ((0 : Int) - (sh : Int))) := by
  show some (ratOfScaled m (-(sh : Int))) = _
  norm_num

lemma parseExpTail_e (m : Int) (sh k : Nat) (sgn : Bool) :
    parseExpTail m sh ('e' :: (if sgn then '-' else '+') :: natToDigits k k)
      = some (ratOfScaled m ((if sgn then -(k : Int) else (k : Int)) - (sh : Int))) := by
  have hall := natToDigits_isDigit (le_rfl : k ≤ k)
  have htw := takeWhile_all_of Char.isDigit (natToDigits k k) hall
  have hne := (natToDigits_spec k k le_rfl).2.1
  have hval := (natToDigits_spec k k le_rfl).1
  cases sgn
  · show parseExpTail m sh ('e' :: '+' :: natToDigits k k) = _
    simp [parseExpTail, parseNumSign, htw.1, htw.2, hne, hval]
  · show parseExpTail m sh ('e' :: '-' :: natToDigits k k) = _
    simp [parseExpTail, parseNumSign, htw.1, htw.2, hne, hval]

lemma parseAfterSign_shape (neg : Bool) (A : Nat) (fr : Bool) (B : Nat) (hB : B < 10)
    (tail : List Char) (Z : Int)
    (htail : ∀ (m : Int) (sh : Nat),
      parseExpTail m sh tail = some (ratOfScaled m (Z - (sh : Int))))
    (hhead : tail = [] ∨ ∃ t, tail = 'e' :: t) :
    parseAfterSign neg
      (natToDigits A A ++ ((if fr then '.' :: natToDigits B B else []) ++ tail))
      = some (ratOfScaled
          (if neg then -(((if fr then 10 * A + B else A) : Nat) : Int)
           else (((if fr then 10 * A + B else A) : Nat) : Int))
          (Z - ((if fr then (1 : Nat) else 0) : Int))) := by
  have hAdig := natToDigits_isDigit (le_rfl : A ≤ A)
  have hAne := (natToDigits_spec A A le_rfl).2.1
  have hAval := (natToDigits_spec A A le_rfl).1
  have hBe : natToDigits B B = [digitChar B] := natToDigits_single B hB
  have hmidhead : ∀ c, ((if fr then '.' :: natToDigits B B else []) ++ tail).head? = some c →
      Char.isDigit c = false := by
    cases fr
    · simp only [Bool.false_eq_true, if_false, List.nil_append]
      rcases hhead with h | ⟨t, h⟩
      · subst h
        intro c hc
        simp at hc
      · subst h
        intro c hc
        simp at hc
        rw [← hc]
        decide
    · simp only [if_true, List.cons_append]
      intro c hc
      simp at hc
      rw [← hc]
      decide
  have hsplit := takeWhile_split Char.isDigit (natToDigits A A) _ hAdig hmidhead
  have hfrac : parseFrac ((if fr then '.' :: natToDigits B B else []) ++ tail)
      = ((if fr then [digitChar B] else []), tail) := by
    cases fr
    · simp only [Bool.false_eq_true, if_false, List.nil_append]
      rcases hhead with h | ⟨t, h⟩
      · subst h
        rfl
      · subst h
        rw [parseFrac_other 'e' t (by decide)]
    · simp only [if_true, List.cons_append]
      have htsplit := takeWhile_split Char.isDigit (natToDigits B B) tail
        (natToDigits_isDigit le_rfl)
        (by
          rcases hhead with h | ⟨t, h⟩
          · subst h
            intro c hc
            simp at hc
          · subst h
            intro c hc
            simp at hc
            rw [← hc]
            decide)
      show parseFrac ('.' :: (natToDigits B B ++ tail)) = _
      simp only [parseFrac, if_pos rfl]
      rw [htsplit.1, htsplit.2, hBe]
      simp
  have hBval : digitsVal [digitChar B] = B := by
    have e : digitsVal [digitChar B] = 10 * 0 + digitVal (digitChar B) := rfl
    rw [e, digitVal_digitChar B hB]
    omega
  simp only [parseAfterSign]
  rw [hsplit.1, hsplit.2, hfrac]
  rw [if_neg (by simp [hAne])]
  cases fr
  · simp only [Bool.false_eq_true, if_false]
    rw [htail]
    simp only [ratOfScaled_eq]
    have h0 : digitsVal ([] : List Char) = 0 := rfl
    cases neg <;> simp [h0, hAval] <;> push_cast <;> ring_nf <;> simp
  · simp only [if_true]
    rw [htail]
    simp only [ratOfScaled_eq]
    cases neg <;> simp [hAval, hBval] <;> push_cast <;> ring_nf <;> simp

lemma parseFloat_mk_neg (l : List Char) :
    parseFloat (String.mk ('-' :: l)) = parseAfterSign true l := rfl

lemma parseFloat_mk_nosign (l : List Char)
    (h : ∀ c, l.head? = some c → (c ≠ '-' ∧ c ≠ '+')) :
    parseFloat (String.mk l) = parseAfterSign false l := by
  cases l with
  | nil => rfl
  | cons c t =>
    show parseAfterSign (parseNumSign (c :: t)).1 (parseNumSign (c :: t)).2 = _
    rw [parseNumSign_cons_other c t (h c rfl).1 (h c rfl).2]

lemma head_not_sign_of_digits (A : Nat) (mid : List Char) :
    ∀ c, (natToDigits A A ++ mid).head? = some c → (c ≠ '-' ∧ c ≠ '+') := by
  intro c hc
  cases e : natToDigits A A with
  | nil => exact absurd e (natToDigits_spec A A le_rfl).2.1
  | cons d ds =>
    rw [e] at hc
    have hcd : d = c := by simpa using hc
    subst hcd
    have hd : d ∈ natToDigits A A := by
      rw [e]
      exact List.mem_cons_self d ds
    rcases (natToDigits_spec A A le_rfl).2.2 d hd with ⟨k, -, ek⟩
    rw [ek]
    exact ⟨(digitChar_props k).2.2.2.1, (digitChar_props k).2.2.2.2.1⟩

lemma parseFloat_renderInt_tail (N : Int) (tail : List Char) (Z : Int)
    (htail : ∀ (m : Int) (sh : Nat),
      parseExpTail m sh tail = some (ratOfScaled m (Z - (sh : Int))))
    (hhead : tail = [] ∨ ∃ t, tail = 'e' :: t) :
    parseFloat (String.mk ((renderInt N).data ++ tail)) = some (ratOfScaled N Z) := by
  have hshape := fun b =>
    parseAfterSign_shape b N.natAbs false 0 (by omega) tail Z htail hhead
  by_cases hN : N < 0
  · have hdata : (renderInt N).data ++ tail
        = '-' :: (natToDigits N.natAbs N.natAbs
            ++ ((if false then '.' :: natToDigits 0 0 else []) ++ tail)) := by
      rw [renderInt_data, if_pos hN]
      simp
    rw [hdata, parseFloat_mk_neg, hshape true]
    simp only [Bool.false_eq_true, if_false, if_true, Nat.cast_zero, Int.sub_zero]
    congr 2
    omega
  · have hdata : (renderInt N).data ++ tail
        = natToDigits N.natAbs N.natAbs
            ++ ((if false then '.' :: natToDigits 0 0 else []) ++ tail) := by
      rw [renderInt_data, if_neg hN]
      simp
    rw [hdata, parseFloat_mk_nosign _ (head_not_sign_of_digits N.natAbs _), hshape false]
    simp only [Bool.false_eq_true, if_false, Nat.cast_zero, Int.sub_zero]
    congr 2
    omega

lemma parseFloat_render1dp_tail (M : Int) (tail : List Char) (Z : Int)
    (htail : ∀ (m : Int) (sh : Nat),
      parseExpTail m sh tail = some (ratOfScaled m (Z - (sh : Int))))
    (hhead : tail = [] ∨ ∃ t, tail = 'e' :: t) :
    parseFloat (String.mk ((render1dpInt M).data ++ tail))
      = some (ratOfScaled M (Z - 1)) := by
  have hshape := fun b =>
    parseAfterSign_shape b (M.natAbs / 10) true (M.natAbs % 10) (by omega) tail Z htail hhead
  have hmag : 10 * (M.natAbs / 10) + M.natAbs % 10 = M.natAbs := by omega
  by_cases hM : M < 0
  · have hdata : (render1dpInt M).data ++ tail
        = '-' :: (natToDigits (M.natAbs / 10) (M.natAbs / 10)
            ++ ((if true then '.' :: natToDigits (M.natAbs % 10) (M.natAbs % 10) else [])
              ++ tail)) := by
      rw [render1dpInt_data, if_pos hM]
      simp
    rw [hdata, parseFloat_mk_neg, hshape true]
    simp only [if_true, Nat.cast_one]
    rw [hmag]
    congr 2
    omega
  · have hdata : (render1dpInt M).data ++ tail
        = natToDigits (M.natAbs / 10) (M.natAbs / 10)
            ++ ((if true then '.' :: natToDigits (M.natAbs % 10) (M.natAbs % 10) else [])
              ++ tail) := by
      rw [render1dpInt_data, if_neg hM]
      simp
    rw [hdata, parseFloat_mk_nosign _ (head_not_sign_of_digits (M.natAbs / 10) _),
      hshape false]
    simp only [if_true, Bool.false_eq_true, if_false, Nat.cast_one]
    rw [hmag]
    congr 2
    omega

lemma digLen_pos (fuel n : Nat) : 1 ≤ digLen fuel n := by
  cases fuel with
  | zero => exact le_rfl
  | succ f =>
    show 1 ≤ (if n < 10 then 1 else digLen f (n / 10) + 1)
    split <;> omega

lemma digLen_spec : ∀ (fuel n : Nat), n ≤ fuel → 1 ≤ n →
    10 ^ (digLen fuel n - 1) ≤ n ∧ n < 10 ^ digLen fuel n := by
  intro fuel
  induction fuel with
  | zero =>
    intro n h1 h2
    omega
  | succ f ih =>
    intro n hn h1
    by_cases h10 : n < 10
    · have e : digLen (f + 1) n = 1 := by simp [digLen, h10]
      rw [e]
      norm_num
      omega
    · have e : digLen (f + 1) n = digLen f (n / 10) + 1 := by simp [digLen, h10]
      have hdiv1 : n / 10 ≤ f := by omega
      have hdiv2 : 1 ≤ n / 10 := by omega
      have hd := ih (n / 10) hdiv1 hdiv2
      rw [e]
      have hd1 : 1 ≤ digLen f (n / 10) := digLen_pos f (n / 10)
      constructor
      · have h2 : 10 ^ digLen f (n / 10) = 10 * 10 ^ (digLen f (n / 10) - 1) := by
          rw [← pow_succ']
          congr 1
          omega
        have h3 : digLen f (n / 10) + 1 - 1 = digLen f (n / 10) := by omega
        rw [h3, h2]
        have := hd.1
        omega
      · have h2 : 10 ^ (digLen f (n / 10) + 1) = 10 * 10 ^ digLen f (n / 10) := by
          rw [pow_succ']
        have := hd.2
        omega

lemma zpow_sub_natCast (u v : Nat) :
    (10:ℚ) ^ ((u : Int) - (v : Int)) = (10:ℚ) ^ u / (10:ℚ) ^ v := by
  rw [zpow_sub₀ (by norm_num : (10:ℚ) ≠ 0), zpow_natCast, zpow_natCast]

lemma fracBracket_true (n d : Nat) (hn : 1 ≤ n) (hd : 1 ≤ d)
    (hc : d * 10 ^ digLen n n ≤ n * 10 ^ digLen d d) :
    (10:ℚ) ^ ((digLen n n : Int) - (digLen d d : Int)) ≤ (n : ℚ) / (d : ℚ)
    ∧ (n : ℚ) / (d : ℚ) < (10:ℚ) ^ ((digLen n n : Int) - (digLen d d : Int) + 1) := by
  have ha := digLen_spec n n le_rfl hn
  have hb := digLen_spec d d le_rfl hd
  have ha1 := digLen_pos n n
  have hb1 := digLen_pos d d
  have hdq : (0:ℚ) < (d : ℚ) := by exact_mod_cast hd
  have h10b : (0:ℚ) < (10:ℚ) ^ digLen d d := by positivity
  constructor
  · rw [zpow_sub_natCast, div_le_div_iff (by positivity) hdq]
    have : ((d * 10 ^ digLen n n : ℕ) : ℚ) ≤ ((n * 10 ^ digLen d d : ℕ) : ℚ) :=
      Nat.cast_le.mpr hc
    push_cast at this
    linarith
  · have hzeq : (digLen n n : Int) - (digLen d d : Int) + 1
        = ((digLen n n + 1 : ℕ) : Int) - ((digLen d d : ℕ) : Int) := by
      push_cast
      ring
    rw [hzeq, zpow_sub_natCast, lt_div_iff h10b]
    have hnat : n * 10 ^ digLen d d < 10 ^ (digLen n n + 1) * d := by
      calc n * 10 ^ digLen d d
          < 10 ^ digLen n n * 10 ^ digLen d d :=
            mul_lt_mul_of_pos_right ha.2 (Nat.pos_pow_of_pos _ (by omega))
        _ = 10 ^ (digLen n n + 1) * 10 ^ (digLen d d - 1) := by
            rw [← pow_add, ← pow_add]
            congr 1
            omega
        _ ≤ 10 ^ (digLen n n + 1) * d := Nat.mul_le_mul_left _ hb.1
    have : ((n * 10 ^ digLen d d : ℕ) : ℚ) < ((10 ^ (digLen n n + 1) * d : ℕ) : ℚ) :=
      Nat.cast_lt.mpr hnat
    push_cast at this
    rw [div_mul_eq_mul_div, div_lt_iff hdq]
    linarith

lemma fracBracket_false (n d : Nat) (hn : 1 ≤ n) (hd : 1 ≤ d)
    (hc : ¬ d * 10 ^ digLen n n ≤ n * 10 ^ digLen d d) :
    (10:ℚ) ^ ((digLen n n : Int) - (digLen d d : Int) - 1) ≤ (n : ℚ) / (d : ℚ)
    ∧ (n : ℚ) / (d : ℚ) < (10:ℚ) ^ ((digLen n n : Int) - (digLen d d : Int)) := by
  have ha := digLen_spec n n le_rfl hn
  have hb := digLen_spec d d le_rfl hd
  have ha1 := digLen_pos n n
  have hb1 := digLen_pos d d
  have hdq : (0:ℚ) < (d : ℚ) := by exact_mod_cast hd
  have h10b : (0:ℚ) < (10:ℚ) ^ digLen d d := by positivity
  constructor
  · have hzeq : (digLen n n : Int) - (digLen d d : Int) - 1
        = ((digLen n n - 1 : ℕ) : Int) - ((digLen d d : ℕ) : Int) := by
      push_cast [Nat.cast_sub ha1]
      ring
    rw [hzeq, zpow_sub_natCast, div_le_div_iff (by positivity) hdq]
    have hnat : 10 ^ (digLen n n - 1) * d ≤ n * 10 ^ digLen d d := by
      calc 10 ^ (digLen n n - 1) * d ≤ n * d := Nat.mul_le_mul_right _ ha.1
        _ ≤ n * 10 ^ digLen d d := Nat.mul_le_mul_left _ (le_of_lt hb.2)
    have : ((10 ^ (digLen n n - 1) * d : ℕ) : ℚ) ≤ ((n * 10 ^ digLen d d : ℕ) : ℚ) :=
      Nat.cast_le.mpr hnat
    push_cast at this
    linarith
  · rw [zpow_sub_natCast, div_lt_div_iff hdq (by positivity)]
    have hnat : n * 10 ^ digLen d d < d * 10 ^ digLen n n := by omega
    have : ((n * 10 ^ digLen d d : ℕ) : ℚ) < ((d * 10 ^ digLen n n : ℕ) : ℚ) :=
      Nat.cast_lt.mpr hnat
    push_cast at this
    linarith

lemma ratExp_bracket (q : ℚ) (hq : q ≠ 0) :
    (10:ℚ) ^ ratExp q ≤ |q| ∧ |q| < (10:ℚ) ^ (ratExp q + 1) := by
  have hn1 : 1 ≤ q.num.natAbs := by
    have := Rat.num_ne_zero.mpr hq
    omega
  have hd1 : 1 ≤ q.den := q.den_pos
  have hdenq : (0:ℚ) < (q.den : ℚ) := by exact_mod_cast hd1
  have h1 : ((q.num.natAbs : ℕ) : ℚ) = |(q.num : ℚ)| := by
    rw [← Int.cast_abs, Int.abs_eq_natAbs, Int.cast_natCast]
  have habs : |q| = (q.num.natAbs : ℚ) / (q.den : ℚ) := by
    conv_lhs => rw [← Rat.num_div_den q]
    rw [abs_div, ← h1, abs_of_pos hdenq]
  by_cases hcond : q.den * 10 ^ digLen q.num.natAbs q.num.natAbs
      ≤ q.num.natAbs * 10 ^ digLen q.den q.den
  · have he : ratExp q = (digLen q.num.natAbs q.num.natAbs : Int)
        - (digLen q.den q.den : Int) := by
      simp only [ratExp]
      rw [if_pos hcond]
    rw [he, habs]
    exact fracBracket_true q.num.natAbs q.den hn1 hd1 hcond
  · have he : ratExp q = (digLen q.num.natAbs q.num.natAbs : Int)
        - (digLen q.den q.den : Int) - 1 := by
      simp only [ratExp]
      rw [if_neg hcond]
    rw [he, habs]
    have h := fracBracket_false q.num.natAbs q.den hn1 hd1 hcond
    constructor
    · exact h.1
    · have : (digLen q.num.natAbs q.num.natAbs : Int) - (digLen q.den q.den : Int) - 1 + 1
          = (digLen q.num.natAbs q.num.natAbs : Int) - (digLen q.den q.den : Int) := by
        ring
      rw [this]
      exact h.2

lemma ratExp_eq_of_bracket (q : ℚ) (z : Int) (hq : q ≠ 0)
    (h1 : (10:ℚ) ^ z ≤ |q|) (h2 : |q| < (10:ℚ) ^ (z + 1)) : ratExp q = z := by
  have hb := ratExp_bracket q hq
  by_contra hne
  rcases lt_or_gt_of_ne hne with hlt | hgt
  · have hle : (10:ℚ) ^ (ratExp q + 1) ≤ (10:ℚ) ^ z :=
      (zpow_le_zpow_iff_right₀ (by norm_num : (1:ℚ) < 10)).mpr (by omega)
    linarith [hb.2]
  · have hle : (10:ℚ) ^ (z + 1) ≤ (10:ℚ) ^ ratExp q :=
      (zpow_le_zpow_iff_right₀ (by norm_num : (1:ℚ) < 10)).mpr (by omega)
    linarith [hb.1]

lemma rheFrac_sub_le (n d : Int) (hd : 0 < d) :
    |(rheFrac n d : ℚ) - (n : ℚ) / (d : ℚ)| ≤ 1 / 2 := by
  have hfd : n.fdiv d = n / d := Int.fdiv_eq_ediv n hd.le
  have hfm : n.fmod d = n % d := Int.fmod_eq_emod n hd.le
  have hsum : d * (n / d) + n % d = n := Int.ediv_add_emod n d
  have hr0 : 0 ≤ n % d := Int.emod_nonneg n (ne_of_gt hd)
  have hrd : n % d < d := Int.emod_lt_of_pos n hd
  have hdq : (0:ℚ) < (d : ℚ) := by exact_mod_cast hd
  have hkey : (n : ℚ) / (d : ℚ)
      = ((n / d : ℤ) : ℚ) + ((n % d : ℤ) : ℚ) / (d : ℚ) := by
    have hcast : (n : ℚ) = (d : ℚ) * ((n / d : ℤ) : ℚ) + ((n % d : ℤ) : ℚ) := by
      exact_mod_cast hsum.symm
    rw [hcast]
    field_simp
    ring
  have hRnn : (0:ℚ) ≤ ((n % d : ℤ) : ℚ) / (d : ℚ) :=
    div_nonneg (by exact_mod_cast hr0) hdq.le
  have hRlt : ((n % d : ℤ) : ℚ) / (d : ℚ) < 1 :=
    (div_lt_one hdq).mpr (by exact_mod_cast hrd)
  simp only [rheFrac]
  rw [hfd, hfm]
  split_ifs with hc1 hc2 hc3
  · have hup : ((n % d : ℤ) : ℚ) / (d : ℚ) < 1 / 2 := by
      rw [div_lt_iff hdq]
      have : ((2 * (n % d) : ℤ) : ℚ) < ((d : ℤ) : ℚ) := by exact_mod_cast hc1
      push_cast at this
      linarith
    have e1 : ((n / d : ℤ) : ℚ) - (n : ℚ) / (d : ℚ)
        = -(((n % d : ℤ) : ℚ) / (d : ℚ)) := by
      rw [hkey]
      ring
    rw [e1, abs_neg, abs_of_nonneg hRnn]
    linarith
  · have hlow : 1 / 2 < ((n % d : ℤ) : ℚ) / (d : ℚ) := by
      rw [lt_div_iff hdq]
      have : ((d : ℤ) : ℚ) < ((2 * (n % d) : ℤ) : ℚ) := by exact_mod_cast hc2
      push_cast at this
      linarith
    have e1 : ((n / d + 1 : ℤ) : ℚ) - (n : ℚ) / (d : ℚ)
        = 1 - ((n % d : ℤ) : ℚ) / (d : ℚ) := by
      rw [hkey]
      push_cast
      ring
    rw [e1, abs_of_nonneg (by linarith)]
    linarith
  · have hhalf : ((n % d : ℤ) : ℚ) / (d : ℚ) = 1 / 2 := by
      have h2 : 2 * (n % d) = d := by omega
      rw [div_eq_iff (ne_of_gt hdq)]
      have : ((2 * (n % d) : ℤ) : ℚ) = ((d : ℤ) : ℚ) := by exact_mod_cast h2
      push_cast at this
      linarith
    have e1 : ((n / d : ℤ) : ℚ) - (n : ℚ) / (d : ℚ)
        = -(((n % d : ℤ) : ℚ) / (d : ℚ)) := by
      rw [hkey]
      ring
    rw [e1, abs_neg, abs_of_nonneg hRnn, hhalf]
  · have hhalf : ((n % d : ℤ) : ℚ) / (d : ℚ) = 1 / 2 := by
      have h2 : 2 * (n % d) = d := by omega
      rw [div_eq_iff (ne_of_gt hdq)]
      have : ((2 * (n % d) : ℤ) : ℚ) = ((d : ℤ) : ℚ) := by exact_mod_cast h2
      push_cast at this
      linarith
    have e1 : ((n / d + 1 : ℤ) : ℚ) - (n : ℚ) / (d : ℚ)
        = 1 - ((n % d : ℤ) : ℚ) / (d : ℚ) := by
      rw [hkey]
      push_cast
      ring
    rw [e1, abs_of_nonneg (by linarith), hhalf]
    norm_num

lemma rheFrac_intMul (m d : Int) (hd : 0 < d) : rheFrac (m * d) d = m := by
  have hfd : (m * d).fdiv d = m * d / d := Int.fdiv_eq_ediv _ hd.le
  have hfm : (m * d).fmod d = m * d % d := Int.fmod_eq_emod _ hd.le
  have hdiv : m * d / d = m := Int.mul_ediv_cancel m (ne_of_gt hd)
  have hmod : m * d % d = 0 := Int.mul_emod_left m d
  simp only [rheFrac]
  rw [hfd, hfm, hdiv, hmod]
  rw [if_pos (by omega : 2 * (0:ℤ) < d)]

lemma rat_num_eq (q : ℚ) : (q.num : ℚ) = q * ((q.den : ℕ) : ℚ) := by
  have hden0 : ((q.den : ℕ) : ℚ) ≠ 0 := by
    have := q.den_pos
    positivity
  exact (div_eq_iff hden0).mp (Rat.num_div_den q)

lemma rheScaled_value_pos (q : ℚ) (z : Int) (hz : 0 ≤ z) :
    ((q.num * 10 ^ z.toNat : ℤ) : ℚ) / ((q.den : ℤ) : ℚ) = q * 10 ^ z := by
  have hz' : ((z.toNat : ℕ) : ℤ) = z := by omega
  have hden : ((q.den : ℤ) : ℚ) ≠ 0 := by
    have := q.den_pos
    push_cast
    positivity
  rw [div_eq_iff hden]
  push_cast
  rw [← zpow_natCast (10:ℚ) z.toNat, hz', rat_num_eq q]
  ring

lemma rheScaled_value_neg (q : ℚ) (z : Int) (hz : ¬ 0 ≤ z) :
    ((q.num : ℤ) : ℚ) / (((q.den : ℤ) * 10 ^ (-z).toNat : ℤ) : ℚ) = q * 10 ^ z := by
  have hz' : (((-z).toNat : ℕ) : ℤ) = -z := by omega
  have hden : (((q.den : ℤ) * 10 ^ (-z).toNat : ℤ) : ℚ) ≠ 0 := by
    have hd := q.den_pos
    push_cast
    positivity
  rw [div_eq_iff hden]
  push_cast
  rw [← zpow_natCast (10:ℚ) (-z).toNat, hz', rat_num_eq q, zpow_neg]
  have h10 : (10:ℚ) ^ z ≠ 0 := zpow_ne_zero z (by norm_num)
  field_simp
  rw [rat_num_eq q]
  ring

lemma rheScaled_sub_le (q : ℚ) (z : Int) :
    |(rheScaled q z : ℚ) - q * 10 ^ z| ≤ 1 / 2 := by
  unfold rheScaled
  by_cases hz : 0 ≤ z
  · rw [if_pos hz]
    have h := rheFrac_sub_le (q.num * 10 ^ z.toNat) (q.den : Int)
      (by exact_mod_cast q.den_pos)
    rwa [rheScaled_value_pos q z hz] at h
  · rw [if_neg hz]
    have hdpos : (0:ℤ) < (q.den : ℤ) * 10 ^ (-z).toNat := by
      have := q.den_pos
      positivity
    have h := rheFrac_sub_le q.num ((q.den : ℤ) * 10 ^ (-z).toNat) hdpos
    rwa [rheScaled_value_neg q z hz] at h

lemma rheScaled_intValue (q : ℚ) (z m : Int) (h : q * 10 ^ z = (m : ℚ)) :
    rheScaled q z = m := by
  unfold rheScaled
  by_cases hz : 0 ≤ z
  · rw [if_pos hz]
    have hdpos : (0:ℤ) < (q.den : ℤ) := by exact_mod_cast q.den_pos
    have hval := rheScaled_value_pos q z hz
    rw [h] at hval
    have hint : q.num * 10 ^ z.toNat = m * (q.den : ℤ) := by
      have hden : ((q.den : ℤ) : ℚ) ≠ 0 := by
        intro hc
        exact absurd hc (by exact_mod_cast (ne_of_gt hdpos))
      have := (div_eq_iff hden).mp hval
      exact_mod_cast this
    rw [hint]
    exact rheFrac_intMul m (q.den : ℤ) hdpos
  · rw [if_neg hz]
    have hdpos : (0:ℤ) < (q.den : ℤ) * 10 ^ (-z).toNat := by
      have := q.den_pos
      positivity
    have hval := rheScaled_value_neg q z hz
    rw [h] at hval
    have hint : q.num = m * ((q.den : ℤ) * 10 ^ (-z).toNat) := by
      have hden : (((q.den : ℤ) * 10 ^ (-z).toNat : ℤ) : ℚ) ≠ 0 := by
        intro hc
        exact absurd hc (by exact_mod_cast (ne_of_gt hdpos))
      have := (div_eq_iff hden).mp hval
      exact_mod_cast this
    rw [hint]
    exact rheFrac_intMul m _ hdpos

lemma exists_getLast?_digit (pre : List Char) (m : Nat) :
    ∃ k, k < 10 ∧ (pre ++ natToDigits m m).getLast? = some (digitChar k) := by
  have hne := (natToDigits_spec m m le_rfl).2.1
  have hdig := (natToDigits_spec m m le_rfl).2.2
  rcases hdig _ (List.getLast_mem hne) with ⟨k, hk, he⟩
  refine ⟨k, hk, ?_⟩
  rw [List.getLast?_append, List.getLast?_eq_getLast _ hne, ← he]
  rfl

lemma expandSuffix_digit_last (s : String) (k : Nat) (hk : k < 10)
    (h : s.data.getLast? = some (digitChar k)) : expandSuffix s = s := by
  have hp := digitChar_props k
  simp only [expandSuffix, h]
  rw [if_neg hp.2.1, if_neg hp.2.2.1]

lemma siPos_facts (j : Nat) (hj : j < 10) :
    siPosChars.getD j ' ' ∉ siNegChars
    ∧ siPosChars.getD j ' ' ∈ siPosChars
    ∧ siPosChars.indexOf (siPosChars.getD j ' ') = j := by
  interval_cases j <;> exact ⟨by decide, by decide, by decide⟩

lemma siNeg_facts (j : Nat) (hj : j < 10) :
    siNegChars.getD j ' ' ∈ siNegChars
    ∧ siNegChars.indexOf (siNegChars.getD j ' ') = j := by
  interval_cases j <;> exact ⟨by decide, by decide⟩

lemma expandSuffix_concat_pos (m : List Char) (j : Nat) (hj : j < 10) :
    expandSuffix (String.mk (m ++ [siPosChars.getD j ' ']))
      = String.mk (m ++ 'e' :: '+' :: natToDigits (3 * (j + 1)) (3 * (j + 1))) := by
  have hf := siPos_facts j hj
  have hdata : (String.mk (m ++ [siPosChars.getD j ' '])).data
      = m ++ [siPosChars.getD j ' '] := rfl
  simp only [expandSuffix, hdata, List.getLast?_concat]
  rw [if_neg hf.1, if_pos hf.2.1, hf.2.2, List.dropLast_concat]

lemma expandSuffix_concat_neg (m : List Char) (j : Nat) (hj : j < 10) :
    expandSuffix (String.mk (m ++ [siNegChars.getD j ' ']))
      = String.mk (m ++ 'e' :: '-' :: natToDigits (3 * (j + 1)) (3 * (j + 1))) := by
  have hf := siNeg_facts j hj
  have hdata : (String.mk (m ++ [siNegChars.getD j ' '])).data
      = m ++ [siNegChars.getD j ' '] := rfl
  simp only [expandSuffix, hdata, List.getLast?_concat]
  rw [if_pos hf.1, hf.2, List.dropLast_concat]

lemma renderInt_ne_nil (N : Int) : (renderInt N).data ≠ [] := by
  rw [renderInt_data]
  exact List.append_ne_nil_of_right_ne_nil _ (natToDigits_spec N.natAbs N.natAbs le_rfl).2.1

lemma render1dp_ne_nil (M : Int) : (render1dpInt M).data ≠ [] := by
  rw [render1dpInt_data]
  exact List.append_ne_nil_of_right_ne_nil _ (by simp)

lemma renderInt_last_digit (N : Int) :
    ∃ k, k < 10 ∧ (renderInt N).data.getLast? = some (digitChar k) := by
  rw [renderInt_data]
  exact exists_getLast?_digit _ _

lemma render1dp_last_digit (M : Int) :
    ∃ k, k < 10 ∧ (render1dpInt M).data.getLast? = some (digitChar k) := by
  rw [render1dpInt_data]
  have hsh : ((if M < 0 then ['-'] else []) ++ natToDigits (M.natAbs / 10) (M.natAbs / 10))
      ++ '.' :: natToDigits (M.natAbs % 10) (M.natAbs % 10)
      = (((if M < 0 then ['-'] else []) ++ natToDigits (M.natAbs / 10) (M.natAbs / 10))
          ++ ['.']) ++ natToDigits (M.natAbs % 10) (M.natAbs % 10) := by
    simp
  rw [hsh]
  exact exists_getLast?_digit _ _

lemma ratOfScaled_mul_pow (M : Int) (a : Nat) (Z E : Int) (h : (a : Int) + Z = E) :
    ratOfScaled (M * 10 ^ a) Z = (M : ℚ) * 10 ^ E := by
  rw [ratOfScaled_eq]
  push_cast
  rw [← zpow_natCast (10:ℚ) a, mul_assoc, ← zpow_add₀ (by norm_num : (10:ℚ) ≠ 0), h]

lemma ratOfScaled_eq_zpow (M : Int) (Z E : Int) (h : Z = E) :
    ratOfScaled M Z = (M : ℚ) * 10 ^ E := by
  rw [ratOfScaled_eq, h]

lemma append_single_string (a : String) (c : Char) :
    a ++ String.mk [c] = String.mk (a.data ++ [c]) := by
  apply String.ext
  rw [String.data_append]

lemma parseFloat_renderInt_nil (N : Int) :
    parseFloat (renderInt N) = some (ratOfScaled N 0) := by
  have h := parseFloat_renderInt_tail N [] 0 (fun m sh => parseExpTail_nil m sh) (Or.inl rfl)
  rw [List.append_nil] at h
  exact h

lemma parseFloat_render1dp_nil (M : Int) :
    parseFloat (render1dpInt M) = some (ratOfScaled M ((0 : Int) - 1)) := by
  have h := parseFloat_render1dp_tail M [] 0 (fun m sh => parseExpTail_nil m sh) (Or.inl rfl)
  rw [List.append_nil] at h
  exact h

lemma parseFloat_renderInt_expPos (N : Int) (K : Nat) :
    parseFloat (String.mk ((renderInt N).data ++ 'e' :: '+' :: natToDigits K K))
      = some (ratOfScaled N (K : Int)) := by
  apply parseFloat_renderInt_tail
  · intro m sh
    have h := parseExpTail_e m sh K false
    simpa using h
  · exact Or.inr ⟨_, rfl⟩

lemma parseFloat_renderInt_expNeg (N : Int) (K : Nat) :
    parseFloat (String.mk ((renderInt N).data ++ 'e' :: '-' :: natToDigits K K))
      = some (ratOfScaled N (-(K : Int))) := by
  apply parseFloat_renderInt_tail
  · intro m sh
    have h := parseExpTail_e m sh K true
    simpa using h
  · exact Or.inr ⟨_, rfl⟩

lemma parseFloat_render1dp_expPos (M : Int) (K : Nat) :
    parseFloat (String.mk ((render1dpInt M).data ++ 'e' :: '+' :: natToDigits K K))
      = some (ratOfScaled M ((K : Int) - 1)) := by
  apply parseFloat_render1dp_tail
  · intro m sh
    have h := parseExpTail_e m sh K false
    simpa using h
  · exact Or.inr ⟨_, rfl⟩

lemma parseFloat_render1dp_expNeg (M : Int) (K : Nat) :
    parseFloat (String.mk ((render1dpInt M).data ++ 'e' :: '-' :: natToDigits K K))
      = some (ratOfScaled M (-(K : Int) - 1)) := by
  apply parseFloat_render1dp_tail
  · intro m sh
    have h := parseExpTail_e m sh K true
    simpa using h
  · exact Or.inr ⟨_, rfl⟩

lemma shortFloat_parse (s : String) (q : ℚ) (hq : q ≠ 0)
    (hlo : -30 ≤ ratExp q) (hhi : ratExp q ≤ 32) :
    (short_float s q).data ≠ []
    ∧ (∃ k, k < 10 ∧ (expandSuffix (short_float s q)).data.getLast? = some (digitChar k))
    ∧ parseFloat (expandSuffix (short_float s q))
        = some ((rheScaled q (1 - ratExp q) : ℚ) * 10 ^ (ratExp q - 1)) := by
  have hfd : (ratExp q).fdiv 3 = ratExp q / 3 := Int.fdiv_eq_ediv _ (by norm_num)
  have hfm : (ratExp q).fmod 3 = ratExp q % 3 := Int.fmod_eq_emod _ (by norm_num)
  have hr01 : 0 ≤ ratExp q % 3 := Int.emod_nonneg _ (by norm_num)
  have hr3 : ratExp q % 3 < 3 := Int.emod_lt_of_pos _ (by norm_num)
  have hde : 3 * (ratExp q / 3) + ratExp q % 3 = ratExp q := Int.ediv_add_emod _ 3
  by_cases hi : ratExp q / 3 = 0
  · by_cases hr : 0 < ratExp q % 3
    · have hsf : short_float s q
          = renderInt (rheScaled q (1 - ratExp q) * 10 ^ ((ratExp q % 3).toNat - 1)) := by
        simp only [short_float]
        rw [if_neg hq, hfd, hfm, if_pos hr, if_pos hi]
      obtain ⟨k, hk, hlast⟩ :=
        renderInt_last_digit (rheScaled q (1 - ratExp q) * 10 ^ ((ratExp q % 3).toNat - 1))
      have hexp : expandSuffix (short_float s q) = short_float s q := by
        rw [hsf]
        exact expandSuffix_digit_last _ k hk hlast
      refine ⟨?_, ⟨k, hk, ?_⟩, ?_⟩
      · rw [hsf]
        exact renderInt_ne_nil _
      · rw [hexp, hsf]
        exact hlast
      · rw [hexp, hsf, parseFloat_renderInt_nil,
          ratOfScaled_mul_pow _ _ _ (ratExp q - 1) (by omega)]
    · have hsf : short_float s q = render1dpInt (rheScaled q (1 - ratExp q)) := by
        simp only [short_float]
        rw [if_neg hq, hfd, hfm, if_neg hr, if_pos hi]
      obtain ⟨k, hk, hlast⟩ := render1dp_last_digit (rheScaled q (1 - ratExp q))
      have hexp : expandSuffix (short_float s q) = short_float s q := by
        rw [hsf]
        exact expandSuffix_digit_last _ k hk hlast
      refine ⟨?_, ⟨k, hk, ?_⟩, ?_⟩
      · rw [hsf]
        exact render1dp_ne_nil _
      · rw [hexp, hsf]
        exact hlast
      · rw [hexp, hsf, parseFloat_render1dp_nil,
          ratOfScaled_eq_zpow _ _ (ratExp q - 1) (by omega)]
  · have hj : (ratExp q / 3).natAbs - 1 < 10 := by omega
    have hjl : (ratExp q / 3).natAbs - 1 < siPosChars.length := by
      have h10 : siPosChars.length = 10 := rfl
      omega
    have hjln : (ratExp q / 3).natAbs - 1 < siNegChars.length := by
      have h10 : siNegChars.length = 10 := rfl
      omega
    by_cases hpos : 0 < ratExp q / 3
    · by_cases hr : 0 < ratExp q % 3
      · have hsf : short_float s q
            = renderInt (rheScaled q (1 - ratExp q) * 10 ^ ((ratExp q % 3).toNat - 1))
              ++ String.mk [siPosChars.getD ((ratExp q / 3).natAbs - 1) ' '] := by
          simp only [short_float]
          rw [if_neg hq, hfd, hfm, if_pos hr, if_neg hi, if_pos hpos, if_pos hjl]
        have hcat : short_float s q
            = String.mk ((renderInt (rheScaled q (1 - ratExp q)
                * 10 ^ ((ratExp q % 3).toNat - 1))).data
              ++ [siPosChars.getD ((ratExp q / 3).natAbs - 1) ' ']) := by
          rw [hsf, append_single_string]
        have hexp : expandSuffix (short_float s q)
            = String.mk ((renderInt (rheScaled q (1 - ratExp q)
                * 10 ^ ((ratExp q % 3).toNat - 1))).data
              ++ 'e' :: '+' :: natToDigits (3 * ((ratExp q / 3).natAbs - 1 + 1))
                  (3 * ((ratExp q / 3).natAbs - 1 + 1))) := by
          rw [hcat]
          exact expandSuffix_concat_pos _ _ hj
        have hassoc : (renderInt (rheScaled q (1 - ratExp q)
              * 10 ^ ((ratExp q % 3).toNat - 1))).data
            ++ 'e' :: '+' :: natToDigits (3 * ((ratExp q / 3).natAbs - 1 + 1))
                (3 * ((ratExp q / 3).natAbs - 1 + 1))
            = ((renderInt (rheScaled q (1 - ratExp q)
              * 10 ^ ((ratExp q % 3).toNat - 1))).data ++ ['e', '+'])
            ++ natToDigits (3 * ((ratExp q / 3).natAbs - 1 + 1))
                (3 * ((ratExp q / 3).natAbs - 1 + 1)) := by
          simp
        obtain ⟨k2, hk2, h2⟩ := exists_getLast?_digit
          ((renderInt (rheScaled q (1 - ratExp q)
            * 10 ^ ((ratExp q % 3).toNat - 1))).data ++ ['e', '+'])
          (3 * ((ratExp q / 3).natAbs - 1 + 1))
        refine ⟨?_, ⟨k2, hk2, ?_⟩, ?_⟩
        · rw [hcat]
          show ((renderInt _).data ++ [_]) ≠ []
          exact List.append_ne_nil_of_right_ne_nil _ (by simp)
        · rw [hexp]
          show ((renderInt _).data ++ 'e' :: '+' :: natToDigits _ _).getLast? = _
          rw [hassoc]
          exact h2
        · rw [hexp, parseFloat_renderInt_expPos,
            ratOfScaled_mul_pow _ _ _ (ratExp q - 1) (by omega)]
      · have hsf : short_float s q
            = render1dpInt (rheScaled q (1 - ratExp q))
              ++ String.mk [siPosChars.getD ((ratExp q / 3).natAbs - 1) ' '] := by
          simp only [short_float]
          rw [if_neg hq, hfd, hfm, if_neg hr, if_neg hi, if_pos hpos, if_pos hjl]
        have hcat : short_float s q
            = String.mk ((render1dpInt (rheScaled q (1 - ratExp q))).data
              ++ [siPosChars.getD ((ratExp q / 3).natAbs - 1) ' ']) := by
          rw [hsf, append_single_string]
        have hexp : expandSuffix (short_float s q)
            = String.mk ((render1dpInt (rheScaled q (1 - ratExp q))).data
              ++ 'e' :: '+' :: natToDigits (3 * ((ratExp q / 3).natAbs - 1 + 1))
                  (3 * ((ratExp q / 3).natAbs - 1 + 1))) := by
          rw [hcat]
          exact expandSuffix_concat_pos _ _ hj
        have hassoc : (render1dpInt (rheScaled q (1 - ratExp q))).data
            ++ 'e' :: '+' :: natToDigits (3 * ((ratExp q / 3).natAbs - 1 + 1))
                (3 * ((ratExp q / 3).natAbs - 1 + 1))
            = ((render1dpInt (rheScaled q (1 - ratExp q))).data ++ ['e', '+'])
            ++ natToDigits (3 * ((ratExp q / 3).natAbs - 1 + 1))
                (3 * ((ratExp q / 3).natAbs - 1 + 1)) := by
          simp
        obtain ⟨k2, hk2, h2⟩ := exists_getLast?_digit
          ((render1dpInt (rheScaled q (1 - ratExp q))).data ++ ['e', '+'])
          (3 * ((ratExp q / 3).natAbs - 1 + 1))
        refine ⟨?_, ⟨k2, hk2, ?_⟩, ?_⟩
        · rw [hcat]
          show ((render1dpInt _).data ++ [_]) ≠ []
          exact List.append_ne_nil_of_right_ne_nil _ (by simp)
        · rw [hexp]
          show ((render1dpInt _).data ++ 'e' :: '+' :: natToDigits _ _).getLast? = _
          rw [hassoc]
          exact h2
        · rw [hexp, parseFloat_render1dp_expPos,
            ratOfScaled_eq_zpow _ _ (ratExp q - 1) (by omega)]
    · by_cases hr : 0 < ratExp q % 3
      · have hsf : short_float s q
            = renderInt (rheScaled q (1 - ratExp q) * 10 ^ ((ratExp q % 3).toNat - 1))
              ++ String.mk [siNegChars.getD ((ratExp q / 3).natAbs - 1) ' '] := by
          simp only [short_float]
          rw [if_neg hq, hfd, hfm, if_pos hr, if_neg hi, if_neg hpos, if_pos hjln]
        have hcat : short_float s q
            = String.mk ((renderInt (rheScaled q (1 - ratExp q)
                * 10 ^ ((ratExp q % 3).toNat - 1))).data
              ++ [siNegChars.getD ((ratExp q / 3).natAbs - 1) ' ']) := by
          rw [hsf, append_single_string]
        have hexp : expandSuffix (short_float s q)
            = String.mk ((renderInt (rheScaled q (1 - ratExp q)
                * 10 ^ ((ratExp q % 3).toNat - 1))).data
              ++ 'e' :: '-' :: natToDigits (3 * ((ratExp q / 3).natAbs - 1 + 1))
                  (3 * ((ratExp q / 3).natAbs - 1 + 1))) := by
          rw [hcat]
          exact expandSuffix_concat_neg _ _ hj
        have hassoc : (renderInt (rheScaled q (1 - ratExp q)
              * 10 ^ ((ratExp q % 3).toNat - 1))).data
            ++ 'e' :: '-' :: natToDigits (3 * ((ratExp q / 3).natAbs - 1 + 1))
                (3 * ((ratExp q / 3).natAbs - 1 + 1))
            = ((renderInt (rheScaled q (1 - ratExp q)
              * 10 ^ ((ratExp q % 3).toNat - 1))).data ++ ['e', '-'])
            ++ natToDigits (3 * ((ratExp q / 3).natAbs - 1 + 1))
                (3 * ((ratExp q / 3).natAbs - 1 + 1)) := by
          simp
        obtain ⟨k2, hk2, h2⟩ := exists_getLast?_digit
          ((renderInt (rheScaled q (1 - ratExp q)
            * 10 ^ ((ratExp q % 3).toNat - 1))).data ++ ['e', '-'])
          (3 * ((ratExp q / 3).natAbs - 1 + 1))
        refine ⟨?_, ⟨k2, hk2, ?_⟩, ?_⟩
        · rw [hcat]
          show ((renderInt _).data ++ [_]) ≠ []
          exact List.append_ne_nil_of_right_ne_nil _ (by simp)
        · rw [hexp]
          show ((renderInt _).data ++ 'e' :: '-' :: natToDigits _ _).getLast? = _
          rw [hassoc]
          exact h2
        · rw [hexp, parseFloat_renderInt_expNeg,
            ratOfScaled_mul_pow _ _ _ (ratExp q - 1) (by omega)]
      · have hsf : short_float s q
            = render1dpInt (rheScaled q (1 - ratExp q))
              ++ String.mk [siNegChars.getD ((ratExp q / 3).natAbs - 1) ' '] := by
          simp only [short_float]
          rw [if_neg hq, hfd, hfm, if_neg hr, if_neg hi, if_neg hpos, if_pos hjln]
        have hcat : short_float s q
            = String.mk ((render1dpInt (rheScaled q (1 - ratExp q))).data
              ++ [siNegChars.getD ((ratExp q / 3).natAbs - 1) ' ']) := by
          rw [hsf, append_single_string]
        have hexp : expandSuffix (short_float s q)
            = String.mk ((render1dpInt (rheScaled q (1 - ratExp q))).data
              ++ 'e' :: '-' :: natToDigits (3 * ((ratExp q / 3).natAbs - 1 + 1))
                  (3 * ((ratExp q / 3).natAbs - 1 + 1))) := by
          rw [hcat]
          exact expandSuffix_concat_neg _ _ hj
        have hassoc : (render1dpInt (rheScaled q (1 - ratExp q))).data
            ++ 'e' :: '-' :: natToDigits (3 * ((ratExp q / 3).natAbs - 1 + 1))
                (3 * ((ratExp q / 3).natAbs - 1 + 1))
            = ((render1dpInt (rheScaled q (1 - ratExp q))).data ++ ['e', '-'])
            ++ natToDigits (3 * ((ratExp q / 3).natAbs - 1 + 1))
                (3 * ((ratExp q / 3).natAbs - 1 + 1)) := by
          simp
        obtain ⟨k2, hk2, h2⟩ := exists_getLast?_digit
          ((render1dpInt (rheScaled q (1 - ratExp q))).data ++ ['e', '-'])
          (3 * ((ratExp q / 3).natAbs - 1 + 1))
        refine ⟨?_, ⟨k2, hk2, ?_⟩, ?_⟩
        · rw [hcat]
          show ((render1dpInt _).data ++ [_]) ≠ []
          exact List.append_ne_nil_of_right_ne_nil _ (by simp)
        · rw [hexp]
          show ((render1dpInt _).data ++ 'e' :: '-' :: natToDigits _ _).getLast? = _
          rw [hassoc]
          exact h2
        · rw [hexp, parseFloat_render1dp_expNeg,
            ratOfScaled_eq_zpow _ _ (ratExp q - 1) (by omega)]

lemma ten_zpow_mul (a b : Int) : (10:ℚ) ^ a * (10:ℚ) ^ b = (10:ℚ) ^ (a + b) :=
  (zpow_add₀ (by norm_num : (10:ℚ) ≠ 0) a b).symm

lemma abs_int_mul_zpow (m : Int) (z : Int) :
    |(m : ℚ) * (10:ℚ) ^ z| = ((m.natAbs : ℕ) : ℚ) * (10:ℚ) ^ z := by
  rw [abs_mul, abs_of_pos (zpow_pos (by norm_num : (0:ℚ) < 10) z)]
  congr 1
  rw [← Int.cast_abs, Int.abs_eq_natAbs, Int.cast_natCast]

lemma mantissa_bracket (q : ℚ) (hq : q ≠ 0) :
    10 ≤ (rheScaled q (1 - ratExp q)).natAbs
    ∧ (rheScaled q (1 - ratExp q)).natAbs ≤ 100 := by
  have hM := rheScaled_sub_le q (1 - ratExp q)
  have hb := ratExp_bracket q hq
  have hpos : (0:ℚ) < (10:ℚ) ^ (1 - ratExp q) := zpow_pos (by norm_num) _
  have habs : |q * 10 ^ (1 - ratExp q)| = |q| * (10:ℚ) ^ (1 - ratExp q) := by
    rw [abs_mul, abs_of_pos hpos]
  have hlow : (10:ℚ) ≤ |q * 10 ^ (1 - ratExp q)| := by
    rw [habs]
    have h1 : (10:ℚ) ^ ratExp q * (10:ℚ) ^ (1 - ratExp q)
        ≤ |q| * (10:ℚ) ^ (1 - ratExp q) :=
      mul_le_mul_of_nonneg_right hb.1 hpos.le
    rw [ten_zpow_mul, show ratExp q + (1 - ratExp q) = 1 by ring, zpow_one] at h1
    exact h1
  have hup : |q * 10 ^ (1 - ratExp q)| < 100 := by
    rw [habs]
    have h1 : |q| * (10:ℚ) ^ (1 - ratExp q)
        < (10:ℚ) ^ (ratExp q + 1) * (10:ℚ) ^ (1 - ratExp q) :=
      mul_lt_mul_of_pos_right hb.2 hpos
    rw [ten_zpow_mul, show ratExp q + 1 + (1 - ratExp q) = 2 by ring] at h1
    norm_num at h1
    exact h1
  have hcast : |((rheScaled q (1 - ratExp q) : ℤ) : ℚ)|
      = (((rheScaled q (1 - ratExp q)).natAbs : ℕ) : ℚ) := by
    rw [← Int.cast_abs, Int.abs_eq_natAbs, Int.cast_natCast]
  have t1 : |q * 10 ^ (1 - ratExp q)| - |((rheScaled q (1 - ratExp q) : ℤ) : ℚ)|
      ≤ |((rheScaled q (1 - ratExp q) : ℤ) : ℚ) - q * 10 ^ (1 - ratExp q)| := by
    have := abs_sub_abs_le_abs_sub (q * 10 ^ (1 - ratExp q))
      ((rheScaled q (1 - ratExp q) : ℚ))
    rwa [abs_sub_comm] at this
  have t2 : |((rheScaled q (1 - ratExp q) : ℤ) : ℚ)| - |q * 10 ^ (1 - ratExp q)|
      ≤ |((rheScaled q (1 - ratExp q) : ℤ) : ℚ) - q * 10 ^ (1 - ratExp q)| :=
    abs_sub_abs_le_abs_sub _ _
  constructor
  · by_contra hcon
    push_neg at hcon
    have h9 : (rheScaled q (1 - ratExp q)).natAbs ≤ 9 := by omega
    have h9q : (((rheScaled q (1 - ratExp q)).natAbs : ℕ) : ℚ) ≤ 9 := by
      exact_mod_cast h9
    rw [hcast] at t1
    linarith
  · by_contra hcon
    push_neg at hcon
    have h9 : 101 ≤ (rheScaled q (1 - ratExp q)).natAbs := by omega
    have h9q : (101:ℚ) ≤ (((rheScaled q (1 - ratExp q)).natAbs : ℕ) : ℚ) := by
      exact_mod_cast h9
    rw [hcast] at t2
    linarith

lemma firstPass_tol (q : ℚ) (hq : q ≠ 0) :
    |((rheScaled q (1 - ratExp q) : ℤ) : ℚ) * 10 ^ (ratExp q - 1) - q|
      ≤ (10:ℚ) ^ (ratExp q - 1) / 2 := by
  have hM := rheScaled_sub_le q (1 - ratExp q)
  have hpos : (0:ℚ) < (10:ℚ) ^ (ratExp q - 1) := zpow_pos (by norm_num) _
  have hfact : ((rheScaled q (1 - ratExp q) : ℤ) : ℚ) * 10 ^ (ratExp q - 1) - q
      = (((rheScaled q (1 - ratExp q) : ℤ) : ℚ) - q * 10 ^ (1 - ratExp q))
        * 10 ^ (ratExp q - 1) := by
    have hqq : q * 10 ^ (1 - ratExp q) * 10 ^ (ratExp q - 1) = q := by
      rw [mul_assoc, ten_zpow_mul, show (1 - ratExp q) + (ratExp q - 1) = 0 by ring,
        zpow_zero, mul_one]
    rw [sub_mul, hqq]
  rw [hfact, abs_mul, abs_of_pos hpos]
  have h2 := mul_le_mul_of_nonneg_right hM hpos.le
  linarith

lemma secondPass_value (V : ℚ) (E2 : Int) (m : Int) (hm : V * 10 ^ ((1:Int) - E2) = (m : ℚ)) :
    ((rheScaled V (1 - E2) : ℤ) : ℚ) * 10 ^ (E2 - 1) = V := by
  rw [rheScaled_intValue V (1 - E2) m hm, ← hm, mul_assoc, ten_zpow_mul,
    show (1 - E2) + (E2 - 1) = 0 by ring, zpow_zero, mul_one]

lemma ten_zpow_one : (10:ℚ) ^ (1:Int) = 10 := zpow_one 10

lemma ten_zpow_two : (10:ℚ) ^ (2:Int) = 100 := by
  rw [show (2:Int) = ((2:ℕ):Int) by norm_num, zpow_natCast]
  norm_num

lemma ten_zpow_three : (10:ℚ) ^ (3:Int) = 1000 := by
  rw [show (3:Int) = ((3:ℕ):Int) by norm_num, zpow_natCast]
  norm_num

/-- C4: for every nonzero value whose magnitude lies in `[10^-30, 10^33)`,
rendering with `short_float` and re-canonicalising with `adjust_float`
yields a string whose parsed value is within half of one unit in the second
significant digit of the original (`10^(e-1)/2` for `e` the decimal
exponent); and for the area 357022 the canonical string is `"360k"`, with
both the submission `"357k"` and `"360k"` itself canonicalising to
`"360k"`. -/
theorem C4_shortScaleRoundTrip :
    (∀ (s : String) (q : ℚ), q ≠ 0 →
        (10:ℚ) ^ (-30 : Int) ≤ |q| → |q| < (10:ℚ) ^ (33 : Int) →
        ∃ t v, adjust_float (short_float s q) = some t
          ∧ parseFloat (expandSuffix t) = some v
          ∧ |v - q| ≤ (10:ℚ) ^ (ratExp q - 1) / 2)
    ∧ short_float "357022" (mkRat 357022 1) = "360k"
    ∧ adjust_float "357k" = some "360k"
    ∧ adjust_float "360k" = some "360k" := by
  refine ⟨?_, by decide, by decide, by decide⟩
  intro s q hq hlow hhigh
  have hb := ratExp_bracket q hq
  have hlo : -30 ≤ ratExp q := by
    have h1 : (10:ℚ) ^ (-30 : Int) < (10:ℚ) ^ (ratExp q + 1) := lt_of_le_of_lt hlow hb.2
    have h2 := (zpow_lt_zpow_iff_right₀ (by norm_num : (1:ℚ) < 10)).mp h1
    omega
  have hhi : ratExp q ≤ 32 := by
    have h1 : (10:ℚ) ^ ratExp q < (10:ℚ) ^ (33 : Int) := lt_of_le_of_lt hb.1 hhigh
    have h2 := (zpow_lt_zpow_iff_right₀ (by norm_num : (1:ℚ) < 10)).mp h1
    omega
  obtain ⟨hne1, ⟨k1, hk1, hlast1⟩, hparse1⟩ := shortFloat_parse s q hq hlo hhi
  have hMb := mantissa_bracket q hq
  have hM0 : ((rheScaled q (1 - ratExp q) : ℤ) : ℚ) ≠ 0 := by
    intro h
    have h0 : rheScaled q (1 - ratExp q) = 0 := by exact_mod_cast h
    rw [h0] at hMb
    exact absurd hMb.1 (by decide)
  have hv0 : ((rheScaled q (1 - ratExp q) : ℤ) : ℚ) * 10 ^ (ratExp q - 1) ≠ 0 :=
    mul_ne_zero hM0 (zpow_ne_zero _ (by norm_num))
  have htol := firstPass_tol q hq
  have hgl : (short_float s q).data.getLast?
      = some ((short_float s q).data.getLast hne1) := List.getLast?_eq_getLast _ hne1
  have hadj : adjust_float (short_float s q)
      = some (short_float (expandSuffix (short_float s q))
          (((rheScaled q (1 - ratExp q) : ℤ) : ℚ) * 10 ^ (ratExp q - 1))) := by
    simp only [adjust_float, hgl, hparse1]
  have habsV : |((rheScaled q (1 - ratExp q) : ℤ) : ℚ) * 10 ^ (ratExp q - 1)|
      = (((rheScaled q (1 - ratExp q)).natAbs : ℕ) : ℚ) * (10:ℚ) ^ (ratExp q - 1) :=
    abs_int_mul_zpow _ _
  by_cases hM100 : (rheScaled q (1 - ratExp q)).natAbs = 100
  · have he2 : ratExp (((rheScaled q (1 - ratExp q) : ℤ) : ℚ) * 10 ^ (ratExp q - 1))
        = ratExp q + 1 := by
      apply ratExp_eq_of_bracket _ _ hv0
      · rw [habsV, hM100, show (ratExp q + 1) = 2 + (ratExp q - 1) by ring,
          ← ten_zpow_mul, ten_zpow_two]
        exact le_of_eq (by push_cast; ring)
      · rw [habsV, hM100, show (ratExp q + 1 + 1) = 3 + (ratExp q - 1) by ring,
          ← ten_zpow_mul, ten_zpow_three]
        have hp : (0:ℚ) < (10:ℚ) ^ (ratExp q - 1) := zpow_pos (by norm_num) _
        have : ((100:ℕ):ℚ) < 1000 := by norm_num
        exact mul_lt_mul_of_pos_right this hp
    by_cases hE32 : ratExp q = 32
    · have hsf2 : short_float (expandSuffix (short_float s q))
          (((rheScaled q (1 - ratExp q) : ℤ) : ℚ) * 10 ^ (ratExp q - 1))
          = expandSuffix (short_float s q) := by
        simp only [short_float]
        rw [if_neg hv0, he2, hE32]
        rw [show ((32:Int) + 1) = 33 by norm_num]
        rw [show ((33:Int).fdiv 3) = 11 from rfl, show ((33:Int).fmod 3) = 0 from rfl]
        rw [if_neg (by norm_num : ¬(11:Int) = 0)]
        rw [if_pos (by norm_num : (0:Int) < 11)]
        rw [if_neg (by decide : ¬((11:Int).natAbs - 1 < siPosChars.length))]
      refine ⟨expandSuffix (short_float s q),
        ((rheScaled q (1 - ratExp q) : ℤ) : ℚ) * 10 ^ (ratExp q - 1), ?_, ?_, htol⟩
      · rw [hadj, hsf2]
      · rw [expandSuffix_digit_last _ k1 hk1 hlast1]
        exact hparse1
    · have hlo2 : -30 ≤ ratExp (((rheScaled q (1 - ratExp q) : ℤ) : ℚ)
          * 10 ^ (ratExp q - 1)) := by
        rw [he2]
        omega
      have hhi2 : ratExp (((rheScaled q (1 - ratExp q) : ℤ) : ℚ)
          * 10 ^ (ratExp q - 1)) ≤ 32 := by
        rw [he2]
        omega
      obtain ⟨-, -, hparse2⟩ := shortFloat_parse (expandSuffix (short_float s q))
        (((rheScaled q (1 - ratExp q) : ℤ) : ℚ) * 10 ^ (ratExp q - 1)) hv0 hlo2 hhi2
      rcases Int.natAbs_eq (rheScaled q (1 - ratExp q)) with hsgn | hsgn
      · have hm : (((rheScaled q (1 - ratExp q) : ℤ) : ℚ) * 10 ^ (ratExp q - 1))
            * 10 ^ ((1:Int) - ratExp (((rheScaled q (1 - ratExp q) : ℤ) : ℚ)
                * 10 ^ (ratExp q - 1)))
            = (((10:Int)) : ℚ) := by
          rw [he2, hsgn, hM100]
          push_cast
          rw [mul_assoc, ten_zpow_mul,
            show (ratExp q - 1) + (1 - (ratExp q + 1)) = -1 by ring, zpow_neg, zpow_one]
          norm_num
        have hval := secondPass_value _ _ 10 hm
        refine ⟨_, _, hadj, ?_, htol⟩
        rw [hparse2, hval]
      · have hm : (((rheScaled q (1 - ratExp q) : ℤ) : ℚ) * 10 ^ (ratExp q - 1))
            * 10 ^ ((1:Int) - ratExp (((rheScaled q (1 - ratExp q) : ℤ) : ℚ)
                * 10 ^ (ratExp q - 1)))
            = (((-10:Int)) : ℚ) := by
          rw [he2, hsgn, hM100]
          push_cast
          rw [mul_assoc, ten_zpow_mul,
            show (ratExp q - 1) + (1 - (ratExp q + 1)) = -1 by ring, zpow_neg, zpow_one]
          norm_num
        have hval := secondPass_value _ _ (-10) hm
        refine ⟨_, _, hadj, ?_, htol⟩
        rw [hparse2, hval]
  · have hMlt : (rheScaled q (1 - ratExp q)).natAbs < 100 := lt_of_le_of_ne hMb.2 hM100
    have he2 : ratExp (((rheScaled q (1 - ratExp q) : ℤ) : ℚ) * 10 ^ (ratExp q - 1))
        = ratExp q := by
      have key1 : (10:ℚ) ^ ratExp q = 10 * (10:ℚ) ^ (ratExp q - 1) := by
        have h := ten_zpow_mul 1 (ratExp q - 1)
        rw [ten_zpow_one] at h
        rw [show (1 + (ratExp q - 1)) = ratExp q by ring] at h
        exact h.symm
      have key2 : (10:ℚ) ^ (ratExp q + 1) = 100 * (10:ℚ) ^ (ratExp q - 1) := by
        have h := ten_zpow_mul 2 (ratExp q - 1)
        rw [ten_zpow_two] at h
        rw [show (2 + (ratExp q - 1)) = ratExp q + 1 by ring] at h
        exact h.symm
      apply ratExp_eq_of_bracket _ _ hv0
      · rw [habsV, key1]
        have h10 : (10:ℚ) ≤ (((rheScaled q (1 - ratExp q)).natAbs : ℕ) : ℚ) := by
          exact_mod_cast hMb.1
        exact mul_le_mul_of_nonneg_right h10 (zpow_pos (by norm_num) _).le
      · rw [habsV, key2]
        have h100 : (((rheScaled q (1 - ratExp q)).natAbs : ℕ) : ℚ) < 100 := by
          exact_mod_cast hMlt
        exact mul_lt_mul_of_pos_right h100 (zpow_pos (by norm_num) _)
    have hm : (((rheScaled q (1 - ratExp q) : ℤ) : ℚ) * 10 ^ (ratExp q - 1))
        * 10 ^ ((1:Int) - ratExp (((rheScaled q (1 - ratExp q) : ℤ) : ℚ)
            * 10 ^ (ratExp q - 1)))
        = ((rheScaled q (1 - ratExp q) : ℤ) : ℚ) := by
      rw [he2, mul_assoc, ten_zpow_mul,
        show (ratExp q - 1) + (1 - ratExp q) = 0 by ring, zpow_zero, mul_one]
    have hval := secondPass_value _ _ _ hm
    have hlo2 : -30 ≤ ratExp (((rheScaled q (1 - ratExp q) : ℤ) : ℚ)
        * 10 ^ (ratExp q - 1)) := by
      rw [he2]
      omega
    have hhi2 : ratExp (((rheScaled q (1 - ratExp q) : ℤ) : ℚ)
        * 10 ^ (ratExp q - 1)) ≤ 32 := by
      rw [he2]
      omega
    obtain ⟨-, -, hparse2⟩ := shortFloat_parse (expandSuffix (short_float s q))
      (((rheScaled q (1 - ratExp q) : ℤ) : ℚ) * 10 ^ (ratExp q - 1)) hv0 hlo2 hhi2
    refine ⟨_, _, hadj, ?_, htol⟩
    rw [hparse2, hval]

lemma dot_not_mem_renderInt (N : Int) : '.' ∉ (renderInt N).data := by
  rw [renderInt_data]
  intro hmem
  rcases List.mem_append.mp hmem with h | h
  · revert h
    by_cases hN : N < 0 <;> simp [hN]
  · rcases (natToDigits_spec N.natAbs N.natAbs le_rfl).2.2 _ h with ⟨k, hk, he⟩
    exact (digitChar_props k).2.2.2.2.2.1 he.symm

lemma render1dp_shape (M : Int) :
    ∃ pre d, d < 10 ∧ (render1dpInt M).data = pre ++ ['.', digitChar d] ∧ '.' ∉ pre := by
  refine ⟨(if M < 0 then ['-'] else []) ++ natToDigits (M.natAbs / 10) (M.natAbs / 10),
    M.natAbs % 10, by omega, ?_, ?_⟩
  · rw [render1dpInt_data,
      natToDigits_single (M.natAbs % 10) (Nat.mod_lt _ (by norm_num))]
  · intro hmem
    rcases List.mem_append.mp hmem with h | h
    · revert h
      by_cases hN : M < 0 <;> simp [hN]
    · rcases (natToDigits_spec _ _ le_rfl).2.2 _ h with ⟨k, hk, he⟩
      exact (digitChar_props k).2.2.2.2.2.1 he.symm

theorem C4_shortScaleRoundTrip_witness :
    ∃ t v, adjust_float (short_float "357022" (mkRat 357022 1)) = some t
      ∧ parseFloat (expandSuffix t) = some v
      ∧ |v - mkRat 357022 1| ≤ (10:ℚ) ^ (ratExp (mkRat 357022 1) - 1) / 2 := by
  have hq : mkRat 357022 1 = (357022:ℚ) := by norm_num [Rat.mkRat_eq_div]
  have habs : |mkRat 357022 1| = (357022:ℚ) := by
    rw [hq]
    exact abs_of_pos (by norm_num)
  apply C4_shortScaleRoundTrip.1 "357022" (mkRat 357022 1)
  · rw [hq]
    norm_num
  · rw [habs]
    calc (10:ℚ) ^ (-30 : Int) ≤ (10:ℚ) ^ (0 : Int) :=
          (zpow_le_zpow_iff_right₀ (by norm_num : (1:ℚ) < 10)).mpr (by norm_num)
      _ = 1 := zpow_zero 10
      _ ≤ 357022 := by norm_num
  · rw [habs]
    calc (357022:ℚ) < (10:ℚ) ^ (6 : ℕ) := by norm_num
      _ = (10:ℚ) ^ ((6 : ℕ) : Int) := (zpow_natCast _ _).symm
      _ ≤ (10:ℚ) ^ (33 : Int) :=
          (zpow_le_zpow_iff_right₀ (by norm_num : (1:ℚ) < 10)).mpr (by norm_num)

/-- C5 counterexample: for the value 2000 the rounding at the kilo scale
yields the whole number 2 (the scaled mantissa 20 is a multiple of 10), yet
`short_float` renders it as `"2.0k"`, with a decimal point — the integer-vs-
one-decimal choice follows `exponent(num) mod 3`, not whether the rounded
value is whole at the chosen scale. -/
theorem C5_counterexample :
    short_float "2000" (mkRat 2000 1) = "2.0k"
    ∧ rheScaled (mkRat 2000 1) (1 - ratExp (mkRat 2000 1)) % 10 = 0
    ∧ '.' ∈ (short_float "2000" (mkRat 2000 1)).data := by
  exact ⟨by decide, by decide, by decide⟩

/-- C5 (amended): in the supported range, `short_float` renders the numeric
part with exactly one decimal place precisely when `exponent(num)` is
divisible by 3 (`e.fmod 3 = 0`), and as an integer string (no decimal
point) otherwise; the optional SI-suffix character follows the numeric
part. -/
theorem C5_formattingByExponent (s : String) (q : ℚ) (hq : q ≠ 0)
    (hlo : -30 ≤ ratExp q) (hhi : ratExp q ≤ 32) :
    ∃ mant : String,
      (short_float s q = mant ∨ ∃ c, short_float s q = mant ++ String.mk [c])
      ∧ ((ratExp q).fmod 3 = 0 →
          ∃ pre d, d < 10 ∧ mant.data = pre ++ ['.', digitChar d] ∧ '.' ∉ pre)
      ∧ (¬ (ratExp q).fmod 3 = 0 → '.' ∉ mant.data) := by
  have hfd : (ratExp q).fdiv 3 = ratExp q / 3 := Int.fdiv_eq_ediv _ (by norm_num)
  have hfm : (ratExp q).fmod 3 = ratExp q % 3 := Int.fmod_eq_emod _ (by norm_num)
  have hr01 : 0 ≤ ratExp q % 3 := Int.emod_nonneg _ (by norm_num)
  have hr3 : ratExp q % 3 < 3 := Int.emod_lt_of_pos _ (by norm_num)
  by_cases hi : ratExp q / 3 = 0
  · by_cases hr : 0 < ratExp q % 3
    · have hsf : short_float s q
          = renderInt (rheScaled q (1 - ratExp q) * 10 ^ ((ratExp q % 3).toNat - 1)) := by
        simp only [short_float]
        rw [if_neg hq, hfd, hfm, if_pos hr, if_pos hi]
      refine ⟨_, Or.inl hsf, fun h0 => absurd h0 (by rw [hfm]; omega),
        fun _ => dot_not_mem_renderInt _⟩
    · have hsf : short_float s q = render1dpInt (rheScaled q (1 - ratExp q)) := by
        simp only [short_float]
        rw [if_neg hq, hfd, hfm, if_neg hr, if_pos hi]
      refine ⟨_, Or.inl hsf, fun _ => render1dp_shape _,
        fun h0 => absurd (by rw [hfm]; omega) h0⟩
  · have hj : (ratExp q / 3).natAbs - 1 < 10 := by omega
    have hjl : (ratExp q / 3).natAbs - 1 < siPosChars.length := by
      have h10 : siPosChars.length = 10 := rfl
      omega
    have hjln : (ratExp q / 3).natAbs - 1 < siNegChars.length := by
      have h10 : siNegChars.length = 10 := rfl
      omega
    by_cases hpos : 0 < ratExp q / 3
    · by_cases hr : 0 < ratExp q % 3
      · have hsf : short_float s q
            = renderInt (rheScaled q (1 - ratExp q) * 10 ^ ((ratExp q % 3).toNat - 1))
              ++ String.mk [siPosChars.getD ((ratExp q / 3).natAbs - 1) ' '] := by
          simp only [short_float]
          rw [if_neg hq, hfd, hfm, if_pos hr, if_neg hi, if_pos hpos, if_pos hjl]
        refine ⟨_, Or.inr ⟨_, hsf⟩, fun h0 => absurd h0 (by rw [hfm]; omega),
          fun _ => dot_not_mem_renderInt _⟩
      · have hsf : short_float s q
            = render1dpInt (rheScaled q (1 - ratExp q))
              ++ String.mk [siPosChars.getD ((ratExp q / 3).natAbs - 1) ' '] := by
          simp only [short_float]
          rw [if_neg hq, hfd, hfm, if_neg hr, if_neg hi, if_pos hpos, if_pos hjl]
        refine ⟨_, Or.inr ⟨_, hsf⟩, fun _ => render1dp_shape _,
          fun h0 => absurd (by rw [hfm]; omega) h0⟩
    · by_cases hr : 0 < ratExp q % 3
      · have hsf : short_float s q
            = renderInt (rheScaled q (1 - ratExp q) * 10 ^ ((ratExp q % 3).toNat - 1))
              ++ String.mk [siNegChars.getD ((ratExp q / 3).natAbs - 1) ' '] := by
          simp only [short_float]
          rw [if_neg hq, hfd, hfm, if_pos hr, if_neg hi, if_neg hpos, if_pos hjln]
        refine ⟨_, Or.inr ⟨_, hsf⟩, fun h0 => absurd h0 (by rw [hfm]; omega),
          fun _ => dot_not_mem_renderInt _⟩
      · have hsf : short_float s q
            = render1dpInt (rheScaled q (1 - ratExp q))
              ++ String.mk [siNegChars.getD ((ratExp q / 3).natAbs - 1) ' '] := by
          simp only [short_float]
          rw [if_neg hq, hfd, hfm, if_neg hr, if_neg hi, if_neg hpos, if_pos hjln]
        refine ⟨_, Or.inr ⟨_, hsf⟩, fun _ => render1dp_shape _,
          fun h0 => absurd (by rw [hfm]; omega) h0⟩

theorem C5_formattingByExponent_witness :
    ∃ mant : String,
      (short_float "2000" (mkRat 2000 1) = mant
        ∨ ∃ c, short_float "2000" (mkRat 2000 1) = mant ++ String.mk [c])
      ∧ ((ratExp (mkRat 2000 1)).fmod 3 = 0 →
          ∃ pre d, d < 10 ∧ mant.data = pre ++ ['.', digitChar d] ∧ '.' ∉ pre)
      ∧ (¬ (ratExp (mkRat 2000 1)).fmod 3 = 0 → '.' ∉ mant.data) :=
  C5_formattingByExponent "2000" (mkRat 2000 1) (by decide) (by decide) (by decide)

/-- C6 counterexample: on the empty string the source evaluates `num[-1]`
before the `try` block, raising an uncaught `IndexError` — modelled as
`none`; `adjust_float` does not return the original string here. -/
theorem C6_counterexample : adjust_float "" = none := rfl

/-- C6 (amended): for every nonempty input string, `adjust_float` never
raises: it returns the original string when the suffix-expanded literal
fails to parse as a float, and the re-canonicalised rendering of the parsed
value otherwise. -/
theorem C6_expandTotalOnNonempty (s : String) (hs : s ≠ "") :
    (adjust_float s).isSome = true
    ∧ (parseFloat (expandSuffix s) = none → adjust_float s = some s)
    ∧ ∀ v, parseFloat (expandSuffix s) = some v →
        adjust_float s = some (short_float (expandSuffix s) v) := by
  have hdata : s.data ≠ [] := by
    intro h
    exact hs (String.ext (by rw [h]))
  have hgl : s.data.getLast? = some (s.data.getLast hdata) :=
    List.getLast?_eq_getLast _ hdata
  refine ⟨?_, ?_, ?_⟩
  · simp only [adjust_float, hgl, Option.isSome_some]
  · intro hp
    simp only [adjust_float, hgl, hp]
  · intro v hp
    simp only [adjust_float, hgl, hp]

theorem C6_expandTotalOnNonempty_witness :
    (adjust_float "357k").isSome = true
    ∧ (parseFloat (expandSuffix "357k") = none → adjust_float "357k" = some "357k")
    ∧ ∀ v, parseFloat (expandSuffix "357k") = some v →
        adjust_float "357k" = some (short_float (expandSuffix "357k") v) :=
  C6_expandTotalOnNonempty "357k" (by decide)
